/-
Verification of the Urban-Mobility-Data-Explorer ETL core against its
natural-language specification.

The development shallowly embeds the Python sources
(scripts/etl.py as namespace Etl, scripts/etl_fixed.py as namespace
EtlFixed, backend/app.py as namespace AppBackend).

Modelling conventions:
  * Python float values are modelled as exact rationals (ℚ); `round(x, n)`
    is modelled as rounding to the nearest multiple of 10^(-n) with ties to
    even, which is the decimal reading of the Python builtin.
  * A CSV row (a Python dict of strings) is an association list of
    string pairs; `row.get(k, d)` is `rowGetD`, `row.get(k)` is `rowGet`.
  * `float(s)` is `parseFloat`, covering sign, decimal point and exponent
    notation (the digit-underscore grouping and the inf and nan literals
    accepted by Python are outside the modelled fragment).
  * `datetime` values are the `DT` structure; `datetime.strptime` with the
    three formats of `parse_dt` and `datetime.fromisoformat` are explicit
    character-level parsers, and `strftime` with the canonical format is
    `fmtDT`.  Python compares datetimes lexicographically by component,
    which is `DT.le`.
  * The MySQL store is external: the vendors and payment_types lookup
    tables are modelled as explicit association lists (`StoreState`),
    while the verdict of the trips INSERT (which depends on unmodelled
    constraints in the store) is an oracle `DbOutcome` per call site.
    `haversine_distance`, which evaluates transcendental functions over
    floats, is likewise a parameter of the etl_fixed validator; every
    theorem below holds for every such oracle.
-/
import Mathlib

/-! # Character and digit utilities -/

/-- Numeric value of a decimal digit character. -/
def charVal (c : Char) : Nat := c.toNat - 48

/-- Value of a digit string read left to right (models int of a digit string). -/
def charsVal : List Char → Nat
  | [] => 0
  | c :: rest => charVal c * 10 ^ rest.length + charsVal rest

/-- Fuel-driven unpadded decimal printer for naturals. -/
def digitsGo : Nat → Nat → List Char
  | 0, _ => []
  | fuel + 1, n =>
    if n < 10 then [Nat.digitChar n]
    else digitsGo fuel (n / 10) ++ [Nat.digitChar (n % 10)]

/-- Unpadded decimal digits of a natural number (at least one digit). -/
def natToDigits (n : Nat) : List Char := digitsGo (n + 1) n

/-- Zero-padded decimal digits: exactly `k` digits of `n` (for `n < 10 ^ k`). -/
def natDigitsPad : Nat → Nat → List Char
  | 0, _ => []
  | k + 1, n => natDigitsPad k (n / 10) ++ [Nat.digitChar (n % 10)]

/-- Drop trailing zero characters (used when printing a fractional part). -/
def dropTrailingZeros (l : List Char) : List Char :=
  (l.reverse.dropWhile (fun c => c == '0')).reverse

theorem charVal_digitChar {d : Nat} (h : d < 10) : charVal (Nat.digitChar d) = d := by
  interval_cases d <;> rfl

theorem isDigit_digitChar {d : Nat} (h : d < 10) : (Nat.digitChar d).isDigit = true := by
  interval_cases d <;> rfl

theorem charsVal_append (a b : List Char) :
    charsVal (a ++ b) = charsVal a * 10 ^ b.length + charsVal b := by
  induction a with
  | nil => simp [charsVal]
  | cons c rest ih =>
      show charVal c * 10 ^ (rest ++ b).length + charsVal (rest ++ b) = _
      rw [ih, List.length_append, pow_add]
      simp only [charsVal]
      ring

theorem charsVal_replicate_zero (t : Nat) : charsVal (List.replicate t '0') = 0 := by
  induction t with
  | zero => rfl
  | succ t ih => simp [List.replicate, charsVal, ih, charVal]

theorem digitsGo_spec : ∀ fuel n, n < fuel → charsVal (digitsGo fuel n) = n := by
  intro fuel
  induction fuel with
  | zero => intro n h; omega
  | succ fuel ih =>
      intro n h
      by_cases h10 : n < 10
      · simp [digitsGo, h10, charsVal, charVal_digitChar h10]
      · have hdiv : n / 10 < fuel := by omega
        simp only [digitsGo, if_neg h10]
        rw [charsVal_append, ih _ hdiv]
        simp [charsVal, charVal_digitChar (Nat.mod_lt n (by norm_num) : n % 10 < 10)]
        omega

theorem charsVal_natToDigits (n : Nat) : charsVal (natToDigits n) = n :=
  digitsGo_spec (n + 1) n (Nat.lt_succ_self n)

theorem digitsGo_all_digit : ∀ fuel n, ∀ c ∈ digitsGo fuel n, c.isDigit = true := by
  intro fuel
  induction fuel with
  | zero => intro n c hc; simp [digitsGo] at hc
  | succ fuel ih =>
      intro n c hc
      by_cases h10 : n < 10
      · simp [digitsGo, h10] at hc
        subst hc; exact isDigit_digitChar h10
      · simp only [digitsGo, if_neg h10, List.mem_append, List.mem_singleton] at hc
        rcases hc with hc | hc
        · exact ih _ c hc
        · subst hc
          exact isDigit_digitChar (Nat.mod_lt n (by norm_num))

theorem natToDigits_all_digit (n : Nat) : ∀ c ∈ natToDigits n, c.isDigit = true :=
  digitsGo_all_digit (n + 1) n

theorem natToDigits_ne_nil (n : Nat) : natToDigits n ≠ [] := by
  unfold natToDigits digitsGo
  by_cases h10 : n < 10 <;> simp [h10]

theorem natDigitsPad_length (k n : Nat) : (natDigitsPad k n).length = k := by
  induction k generalizing n with
  | zero => rfl
  | succ k ih => simp [natDigitsPad, ih]

theorem charsVal_natDigitsPad (k : Nat) :
    ∀ n, n < 10 ^ k → charsVal (natDigitsPad k n) = n := by
  induction k with
  | zero => intro n h; interval_cases n; rfl
  | succ k ih =>
      intro n h
      have hdiv : n / 10 < 10 ^ k := by
        rw [Nat.div_lt_iff_lt_mul (by norm_num)]
        calc n < 10 ^ (k + 1) := h
        _ = 10 ^ k * 10 := by ring
      simp only [natDigitsPad]
      rw [charsVal_append, ih _ hdiv]
      simp [charsVal, charVal_digitChar (Nat.mod_lt n (by norm_num) : n % 10 < 10)]
      omega

theorem natDigitsPad_all_digit (k : Nat) :
    ∀ n, ∀ c ∈ natDigitsPad k n, c.isDigit = true := by
  induction k with
  | zero => intro n c hc; simp [natDigitsPad] at hc
  | succ k ih =>
      intro n c hc
      simp only [natDigitsPad, List.mem_append, List.mem_singleton] at hc
      rcases hc with hc | hc
      · exact ih _ c hc
      · subst hc
        exact isDigit_digitChar (Nat.mod_lt n (by norm_num))

/-! # Datetime model (Python `datetime`) -/

/-- A Python datetime value: year, month, day, hour, minute, second,
microsecond.  Only values accepted by the `datetime` constructor are
produced by the parsers below. -/
structure DT where
  year : Nat
  month : Nat
  day : Nat
  hour : Nat
  minute : Nat
  second : Nat
  usec : Nat
deriving DecidableEq

/-- Number of days of a month, with the Gregorian leap rule. -/
def daysInMonth (y m : Nat) : Nat :=
  if m = 2 then
    if y % 4 = 0 ∧ (y % 100 ≠ 0 ∨ y % 400 = 0) then 29 else 28
  else if m = 4 ∨ m = 6 ∨ m = 9 ∨ m = 11 then 30
  else 31

/-- Field ranges enforced by the `datetime` constructor. -/
def DT.Valid (t : DT) : Prop :=
  1 ≤ t.year ∧ t.year ≤ 9999 ∧ 1 ≤ t.month ∧ t.month ≤ 12 ∧
  1 ≤ t.day ∧ t.day ≤ daysInMonth t.year t.month ∧
  t.hour ≤ 23 ∧ t.minute ≤ 59 ∧ t.second ≤ 59 ∧ t.usec ≤ 999999

instance (t : DT) : Decidable t.Valid := by unfold DT.Valid; infer_instance

/-- Python compares datetimes componentwise lexicographically; this is `<=`. -/
def DT.le (a b : DT) : Bool :=
  if a.year ≠ b.year then a.year < b.year
  else if a.month ≠ b.month then a.month < b.month
  else if a.day ≠ b.day then a.day < b.day
  else if a.hour ≠ b.hour then a.hour < b.hour
  else if a.minute ≠ b.minute then a.minute < b.minute
  else if a.second ≠ b.second then a.second < b.second
  else if a.usec ≠ b.usec then a.usec < b.usec
  else true

/-- Read exactly four digit characters (the strptime `%Y` directive). -/
def takeDigits4 : List Char → Option (Nat × List Char)
  | c1 :: c2 :: c3 :: c4 :: rest =>
    if c1.isDigit ∧ c2.isDigit ∧ c3.isDigit ∧ c4.isDigit then
      some (((charVal c1 * 10 + charVal c2) * 10 + charVal c3) * 10 + charVal c4, rest)
    else none
  | _ => none

/-- Read one or two digit characters, greedily (strptime numeric directives). -/
def takeDigits2 : List Char → Option (Nat × List Char)
  | [] => none
  | c1 :: rest =>
    if c1.isDigit then
      match rest with
      | c2 :: rest2 =>
        if c2.isDigit then some (charVal c1 * 10 + charVal c2, rest2)
        else some (charVal c1, rest)
      | [] => some (charVal c1, [])
    else none

/-- Read exactly two digit characters (ISO-8601 fields). -/
def takeDigits2Exact : List Char → Option (Nat × List Char)
  | c1 :: c2 :: rest =>
    if c1.isDigit ∧ c2.isDigit then some (charVal c1 * 10 + charVal c2, rest) else none
  | _ => none

/-- Expect a given literal character. -/
def expectC (c : Char) : List Char → Option (List Char)
  | [] => none
  | x :: rest => if x = c then some rest else none

/-- Greedily read between one and `k` digit characters. -/
def takeDigitsUpTo : Nat → List Char → Option (Nat × Nat × List Char)
  | _, [] => none
  | 0, _ :: _ => none
  | k + 1, c :: rest =>
    if c.isDigit then
      match takeDigitsUpTo k rest with
      | some (v, len, rest2) => some (charVal c * 10 ^ len + v, len + 1, rest2)
      | none => some (charVal c, 1, rest)
    else none

/-- Package parsed fields, enforcing the `datetime` constructor checks. -/
def mkDT (y mo d h mi s us : Nat) : Option DT :=
  let t : DT := ⟨y, mo, d, h, mi, s, us⟩
  if t.Valid then some t else none

/-- strptime with format `%Y-%m-%d %H:%M:%S`. -/
def parseFmtSpace (l : List Char) : Option DT := do
  let (y, r) ← takeDigits4 l
  let r ← expectC '-' r
  let (mo, r) ← takeDigits2 r
  let r ← expectC '-' r
  let (d, r) ← takeDigits2 r
  let r ← expectC ' ' r
  let (h, r) ← takeDigits2 r
  let r ← expectC ':' r
  let (mi, r) ← takeDigits2 r
  let r ← expectC ':' r
  let (s, r) ← takeDigits2 r
  if r = [] then mkDT y mo d h mi s 0 else none

/-- strptime with format `%Y-%m-%dT%H:%M:%S`. -/
def parseFmtT (l : List Char) : Option DT := do
  let (y, r) ← takeDigits4 l
  let r ← expectC '-' r
  let (mo, r) ← takeDigits2 r
  let r ← expectC '-' r
  let (d, r) ← takeDigits2 r
  let r ← expectC 'T' r
  let (h, r) ← takeDigits2 r
  let r ← expectC ':' r
  let (mi, r) ← takeDigits2 r
  let r ← expectC ':' r
  let (s, r) ← takeDigits2 r
  if r = [] then mkDT y mo d h mi s 0 else none

/-- strptime with format `%m/%d/%Y %H:%M:%S`. -/
def parseFmtUS (l : List Char) : Option DT := do
  let (mo, r) ← takeDigits2 l
  let r ← expectC '/' r
  let (d, r) ← takeDigits2 r
  let r ← expectC '/' r
  let (y, r) ← takeDigits4 r
  let r ← expectC ' ' r
  let (h, r) ← takeDigits2 r
  let r ← expectC ':' r
  let (mi, r) ← takeDigits2 r
  let r ← expectC ':' r
  let (s, r) ← takeDigits2 r
  if r = [] then mkDT y mo d h mi s 0 else none

/-- Optional seconds with optional fractional part, then end of input
(the tail of an ISO-8601 time).  Timezone suffixes are outside the
modelled fragment. -/
def parseIsoSecFrac (s0 : Nat) (l : List Char) : Option (Nat × Nat) :=
  match l with
  | [] => some (s0, 0)
  | _ =>
    match expectC ':' l with
    | none => none
    | some r =>
      match takeDigits2Exact r with
      | none => none
      | some (s, r) =>
        match r with
        | [] => some (s, 0)
        | _ =>
          match expectC '.' r with
          | none => none
          | some r =>
            match takeDigitsUpTo 6 r with
            | some (v, len, []) => some (s, v * 10 ^ (6 - len))
            | _ => none

/-- Time-of-day part of an ISO string after an accepted separator. -/
def parseIsoSep (sep : Char) (y mo d : Nat) (r : List Char) : Option DT :=
  if sep = 'T' ∨ sep = ' ' then do
    let (h, r) ← takeDigits2Exact r
    let r ← expectC ':' r
    let (mi, r) ← takeDigits2Exact r
    let (s, us) ← parseIsoSecFrac 0 r
    mkDT y mo d h mi s us
  else none

/-- Optional time-of-day part of an ISO string (empty means midnight). -/
def parseIsoTime (y mo d : Nat) (r : List Char) : Option DT :=
  match r with
  | [] => mkDT y mo d 0 0 0 0
  | sep :: r => parseIsoSep sep y mo d r

/-- `datetime.fromisoformat` (dashed date, optional `T` or space separated
time with optional fractional seconds). -/
def parseIso (l : List Char) : Option DT := do
  let (y, r) ← takeDigits4 l
  let r ← expectC '-' r
  let (mo, r) ← takeDigits2Exact r
  let r ← expectC '-' r
  let (d, r) ← takeDigits2Exact r
  parseIsoTime y mo d r

/-- `parse_dt` of etl.py and etl_fixed.py: try the three strptime formats
in order, then fall back to `fromisoformat`. -/
def parse_dt (s : String) : Option DT :=
  match parseFmtSpace s.toList with
  | some t => some t
  | none =>
    match parseFmtT s.toList with
    | some t => some t
    | none =>
      match parseFmtUS s.toList with
      | some t => some t
      | none => parseIso s.toList

/-- `strftime` with format `%Y-%m-%d %H:%M:%S` (drops microseconds). -/
def fmtDT (t : DT) : String :=
  String.mk (natDigitsPad 4 t.year ++ '-' :: natDigitsPad 2 t.month ++
    '-' :: natDigitsPad 2 t.day ++ ' ' :: natDigitsPad 2 t.hour ++
    ':' :: natDigitsPad 2 t.minute ++ ':' :: natDigitsPad 2 t.second)

/-! # Python `round` on exact decimals -/

/-- Round a rational to the nearest integer, ties to even (the Python
builtin `round` read over exact values). -/
def rndEven (y : ℚ) : ℤ :=
  if Int.fract y = 1 / 2 then (if ⌊y⌋ % 2 = 0 then ⌊y⌋ else ⌊y⌋ + 1)
  else round y

/-- Python `round(x, n)`: nearest multiple of `10 ^ (-n)`, ties to even. -/
def roundTo (n : Nat) (x : ℚ) : ℚ := (rndEven (x * 10 ^ n) : ℚ) / 10 ^ n

theorem rndEven_intCast (m : ℤ) : rndEven (m : ℚ) = m := by
  unfold rndEven
  rw [Int.fract_intCast]
  norm_num

theorem rndEven_le {y : ℚ} {m : ℤ} (h : y ≤ (m : ℚ)) : rndEven y ≤ m := by
  unfold rndEven
  split
  · rename_i htie
    have hfl : (⌊y⌋ : ℚ) + 1 / 2 = y := by
      have := Int.fract_add_floor y
      rw [htie] at this
      linarith
    have hlt : (⌊y⌋ : ℚ) < (m : ℚ) := by linarith
    have hle : ⌊y⌋ + 1 ≤ m := by exact_mod_cast hlt
    split <;> omega
  · calc round y = ⌊y + 1 / 2⌋ := round_eq y
    _ ≤ ⌊(m : ℚ) + 1 / 2⌋ := Int.floor_le_floor (by linarith)
    _ = m := by
        rw [add_comm, Int.floor_add_int]
        norm_num

theorem le_rndEven {y : ℚ} {m : ℤ} (h : (m : ℚ) ≤ y) : m ≤ rndEven y := by
  have hfl : m ≤ ⌊y⌋ := Int.le_floor.mpr h
  unfold rndEven
  split
  · split <;> omega
  · calc m ≤ ⌊y⌋ := hfl
    _ ≤ ⌊y + 1 / 2⌋ := Int.floor_le_floor (by linarith)
    _ = round y := (round_eq y).symm

theorem roundTo_le {n : Nat} {x : ℚ} {M : ℤ} (h : x ≤ (M : ℚ) / 10 ^ n) :
    roundTo n x ≤ (M : ℚ) / 10 ^ n := by
  have hpow : (0 : ℚ) < 10 ^ n := by positivity
  have hx : x * 10 ^ n ≤ (M : ℚ) := by
    have h2 := mul_le_mul_of_nonneg_right h hpow.le
    rwa [div_mul_cancel₀ _ (ne_of_gt hpow)] at h2
  unfold roundTo
  have := rndEven_le hx
  apply div_le_div_of_nonneg_right _ hpow.le
  · exact_mod_cast this

theorem le_roundTo {n : Nat} {x : ℚ} {M : ℤ} (h : (M : ℚ) / 10 ^ n ≤ x) :
    (M : ℚ) / 10 ^ n ≤ roundTo n x := by
  have hpow : (0 : ℚ) < 10 ^ n := by positivity
  have hx : (M : ℚ) ≤ x * 10 ^ n := by
    rw [div_le_iff₀ hpow] at h
    exact h
  unfold roundTo
  have := le_rndEven hx
  apply div_le_div_of_nonneg_right _ hpow.le
  · exact_mod_cast this

theorem roundTo_intMul (n : Nat) (m : ℤ) :
    roundTo n ((m : ℚ) / 10 ^ n) = (m : ℚ) / 10 ^ n := by
  unfold roundTo
  have hpow : (10 : ℚ) ^ n ≠ 0 := by positivity
  have : (m : ℚ) / 10 ^ n * 10 ^ n = (m : ℚ) := by field_simp
  rw [this, rndEven_intCast]

/-- `roundTo n x` is an integer multiple of `10 ^ (-n)`. -/
theorem roundTo_eq_intMul (n : Nat) (x : ℚ) :
    ∃ m : ℤ, roundTo n x = (m : ℚ) / 10 ^ n :=
  ⟨rndEven (x * 10 ^ n), rfl⟩

theorem roundTo_idem (n : Nat) (x : ℚ) : roundTo n (roundTo n x) = roundTo n x := by
  obtain ⟨m, hm⟩ := roundTo_eq_intMul n x
  rw [hm, roundTo_intMul]

/-! # Python `float(string)` and float printing -/

/-- Whitespace stripped by `float` (and by `str.strip`). -/
def isWs (c : Char) : Bool := c == ' ' || c == '\t' || c == '\n' || c == '\r'

/-- Strip leading and trailing whitespace from a character list. -/
def trimWs (l : List Char) : List Char :=
  ((l.dropWhile isWs).reverse.dropWhile isWs).reverse

/-- A nonempty all-digit run read as a natural number. -/
def parseNatDigits (l : List Char) : Option Nat :=
  if l ≠ [] ∧ l.all Char.isDigit then some (charsVal l) else none

/-- Split at the first decimal point; fails when more than one is present. -/
def splitOnDot (l : List Char) : Option (List Char × Option (List Char)) :=
  let a := l.takeWhile (fun c => !(c == '.'))
  match l.dropWhile (fun c => !(c == '.')) with
  | [] => some (a, none)
  | _ :: b => if b.any (fun c => c == '.') then none else some (a, some b)

/-- Split at the first exponent marker. -/
def splitOnE (l : List Char) : List Char × Option (List Char) :=
  let a := l.takeWhile (fun c => !(c == 'e' || c == 'E'))
  match l.dropWhile (fun c => !(c == 'e' || c == 'E')) with
  | [] => (a, none)
  | _ :: b => (a, some b)

/-- Mantissa of a float literal: digits with an optional decimal point,
at least one digit overall. -/
def parseMant (l : List Char) : Option ℚ :=
  match splitOnDot l with
  | none => none
  | some (a, none) => (parseNatDigits a).map (fun n => (n : ℚ))
  | some (a, some b) =>
    if a = [] ∧ b = [] then none
    else if a.all Char.isDigit ∧ b.all Char.isDigit then
      some ((charsVal a : ℚ) + (charsVal b : ℚ) / 10 ^ b.length)
    else none

/-- Signed integer literal (used for exponents). -/
def parseSignedNat (l : List Char) : Option ℤ :=
  match l with
  | [] => none
  | c :: rest =>
    if c = '+' then (parseNatDigits rest).map (fun n => (n : ℤ))
    else if c = '-' then (parseNatDigits rest).map (fun n => -(n : ℤ))
    else (parseNatDigits (c :: rest)).map (fun n => (n : ℤ))

/-- Unsigned float literal: mantissa with optional exponent part. -/
def parsePosFloat (l : List Char) : Option ℚ :=
  match splitOnE l with
  | (m, none) => parseMant m
  | (m, some ecs) => do
    let q ← parseMant m
    let e ← parseSignedNat ecs
    some (q * (10 : ℚ) ^ e)

/-- Python `float(s)` on the modelled fragment: strip whitespace, optional
sign, mantissa, optional exponent. -/
def parseFloat (s : String) : Option ℚ :=
  match trimWs s.toList with
  | [] => none
  | c :: rest =>
    if c = '+' then parsePosFloat rest
    else if c = '-' then (parsePosFloat rest).map (fun q => -q)
    else parsePosFloat (c :: rest)

/-- Decimal rendering of a rational whose denominator divides 10^6, in the
positional form `str` gives the corresponding Python float: integer part,
decimal point, fractional digits with trailing zeros dropped but at least
one digit.  (For tiny magnitudes Python repr switches to exponent
notation; the parsed value is identical, so the positional form is used
throughout.) -/
def qToStr (x : ℚ) : String :=
  let k := (|x| * 10 ^ 6).num.toNat
  let ip := k / 10 ^ 6
  let fr := k % 10 ^ 6
  let frDigits := dropTrailingZeros (natDigitsPad 6 fr)
  let frStr := if frDigits = [] then ['0'] else frDigits
  String.mk ((if x < 0 then ['-'] else []) ++ natToDigits ip ++ '.' :: frStr)

/-! # Raw rows and the normalized trip record -/

/-- A raw CSV row: the dict produced by `csv.DictReader` for one line. -/
def Row : Type := List (String × String)

/-- `row.get(k)`: first value stored under `k`, if any. -/
def rowGet (row : Row) (k : String) : Option String :=
  (row.find? (fun p => p.1 == k)).map (fun p => p.2)

/-- `row.get(k, d)`. -/
def rowGetD (row : Row) (k d : String) : String := (rowGet row k).getD d

/-- `v or None` on an optional string: collapses missing and empty to None. -/
def orNone : Option String → Option String
  | none => none
  | some s => if s = "" then none else some s

theorem orNone_ne_some_empty (o : Option String) : orNone o ≠ some "" := by
  cases o with
  | none => simp [orNone]
  | some s =>
      by_cases h : s = "" <;> simp [orNone, h]

/-- The canonical accepted-record shape (dict emitted by the validators).
`vendor_id` and `payment_type` are `Option` because etl.py stores
`row.get(...) or None` there; the empty dict of a rejection is modelled by
`Option.none` at the record level. -/
structure NormalizedTrip where
  vendor_id : Option String
  pickup_datetime : String
  dropoff_datetime : String
  pickup_lat : ℚ
  pickup_lng : ℚ
  dropoff_lat : ℚ
  dropoff_lng : ℚ
  distance_km : ℚ
  duration_min : ℚ
  fare_amount : ℚ
  tip_amount : ℚ
  payment_type : Option String
deriving DecidableEq

/-! # The shared numeric gate `to_float`

In all three sources `to_float` appends its reasons to the enclosing
mutable `reasons` list.  The model returns the appended-reasons list of
each call; the enclosing validator concatenates them in call order, which
yields exactly the final Python list. -/

/-- `to_float(val, key, min_v, max_v)`: parsed value (0.0 on parse
failure) together with the reasons this call appends. -/
def to_float (val key : String) (min_v max_v : Option ℚ) : ℚ × List String :=
  match parseFloat val with
  | none => (0, ["invalid_" ++ key])
  | some x =>
    let r1 : List String :=
      match min_v with
      | some m => if x < m then ["out_of_range_" ++ key] else []
      | none => []
    let r2 : List String :=
      match max_v with
      | some m => if x > m then ["out_of_range_" ++ key] else []
      | none => []
    (x, r1 ++ r2)

/-- Boolean prefix test on character lists. -/
def listPre : List Char → List Char → Bool
  | [], _ => true
  | _ :: _, [] => false
  | a :: as, b :: bs => a == b && listPre as bs

/-- `s.startswith(p)`. -/
def strStarts (s p : String) : Bool := listPre p.toList s.toList

/-- The rejection gate of all three validators:
`k.startswith('invalid_') or k.startswith('out_of_range_')`. -/
def isTagged (k : String) : Bool := strStarts k "invalid_" || strStarts k "out_of_range_"

namespace Etl

/-! `validate_and_transform_row` of scripts/etl.py.  The eight `to_float`
calls appear in source order; the shared mutable `reasons` list is the
concatenation of the lists each call appends.  The stages are split into
named definitions (the numeric results `tf1`..`tf8`, the reason list, the
emitted dict) purely for proof modularity; composed, they are the source
function line by line. -/

def tf1 (row : Row) : ℚ × List String :=
  to_float (rowGetD row "pickup_lat" "") "pickup_lat" (some (-90)) (some 90)

def tf2 (row : Row) : ℚ × List String :=
  to_float (rowGetD row "pickup_lng" "") "pickup_lng" (some (-180)) (some 180)

def tf3 (row : Row) : ℚ × List String :=
  to_float (rowGetD row "dropoff_lat" "") "dropoff_lat" (some (-90)) (some 90)

def tf4 (row : Row) : ℚ × List String :=
  to_float (rowGetD row "dropoff_lng" "") "dropoff_lng" (some (-180)) (some 180)

def tf5 (row : Row) : ℚ × List String :=
  to_float (rowGetD row "distance_km" "") "distance_km" (some 0) (some 200)

def tf6 (row : Row) : ℚ × List String :=
  to_float (rowGetD row "duration_min" "") "duration_min" (some (1 / 100)) (some 1440)

def tf7 (row : Row) : ℚ × List String :=
  to_float (rowGetD row "fare_amount" "") "fare_amount" (some 0) none

def tf8 (row : Row) : ℚ × List String :=
  to_float (rowGetD row "tip_amount" "") "tip_amount" (some 0) none

/-- The final value of the `reasons` list after the eight numeric gates. -/
def reasonsOf (row : Row) : List String :=
  (tf1 row).2 ++ (tf2 row).2 ++ (tf3 row).2 ++ (tf4 row).2 ++
  (tf5 row).2 ++ (tf6 row).2 ++ (tf7 row).2 ++ (tf8 row).2

/-- The dict returned on acceptance. -/
def tripOf (row : Row) (pickup dropoff : DT) : NormalizedTrip :=
  ⟨orNone (rowGet row "vendor_id"), fmtDT pickup, fmtDT dropoff,
    roundTo 6 (tf1 row).1, roundTo 6 (tf2 row).1, roundTo 6 (tf3 row).1,
    roundTo 6 (tf4 row).1, roundTo 3 (tf5 row).1, roundTo 3 (tf6 row).1,
    roundTo 2 (tf7 row).1, roundTo 2 (tf8 row).1,
    orNone (rowGet row "payment_type")⟩

/-- The body of the validator once both timestamps have parsed. -/
def afterTimestamps (row : Row) (pickup dropoff : DT) :
    Option NormalizedTrip × List String :=
  if DT.le dropoff pickup then (none, ["non_positive_duration"])
  else if (reasonsOf row).any isTagged then (none, reasonsOf row)
  else (some (tripOf row pickup dropoff), reasonsOf row)

def validate_and_transform_row (row : Row) : Option NormalizedTrip × List String :=
  match parse_dt (rowGetD row "pickup_datetime" ""),
      parse_dt (rowGetD row "dropoff_datetime" "") with
  | some pickup, some dropoff => afterTimestamps row pickup dropoff
  | _, _ => (none, ["invalid_timestamp"])

end Etl

namespace EtlFixed

/-! `validate_and_transform_row` of scripts/etl_fixed.py, split into named
stages the same way.  The `haversine_distance` call is the parameter
`hav`; its `except` branch (a domain fault in the float computation) is
the `none` result. -/

def tf1 (row : Row) : ℚ × List String :=
  to_float (rowGetD row "pickup_latitude" "") "pickup_lat" (some (-90)) (some 90)

def tf2 (row : Row) : ℚ × List String :=
  to_float (rowGetD row "pickup_longitude" "") "pickup_lng" (some (-180)) (some 180)

def tf3 (row : Row) : ℚ × List String :=
  to_float (rowGetD row "dropoff_latitude" "") "dropoff_lat" (some (-90)) (some 90)

def tf4 (row : Row) : ℚ × List String :=
  to_float (rowGetD row "dropoff_longitude" "") "dropoff_lng" (some (-180)) (some 180)

/-- `trip_duration` is read in seconds, gated to [1, 86400]. -/
def tf5 (row : Row) : ℚ × List String :=
  to_float (rowGetD row "trip_duration" "") "trip_duration" (some 1) (some 86400)

/-- `duration_min = trip_duration_seconds / 60.0`. -/
def duration_min (row : Row) : ℚ := (tf5 row).1 / 60

/-- The haversine call on the four parsed coordinates. -/
def havRes (hav : ℚ → ℚ → ℚ → ℚ → Option ℚ) (row : Row) : Option ℚ :=
  hav (tf1 row).1 (tf2 row).1 (tf3 row).1 (tf4 row).1

/-- The computed distance; the except branch substitutes 0.0. -/
def distance_km (hav : ℚ → ℚ → ℚ → ℚ → Option ℚ) (row : Row) : ℚ :=
  (havRes hav row).getD 0

/-- Reasons appended by the haversine try/except. -/
def havReasons (hav : ℚ → ℚ → ℚ → ℚ → Option ℚ) (row : Row) : List String :=
  match havRes hav row with
  | some _ => []
  | none => ["invalid_coordinates"]

/-- The `reasons` list at the `invalid_` / `out_of_range_` gate. -/
def reasonsOf (hav : ℚ → ℚ → ℚ → ℚ → Option ℚ) (row : Row) : List String :=
  (tf1 row).2 ++ (tf2 row).2 ++ (tf3 row).2 ++ (tf4 row).2 ++ (tf5 row).2 ++
    havReasons hav row

/-- The plausibility reasons appended after the gate. -/
def plausReasons (hav : ℚ → ℚ → ℚ → ℚ → Option ℚ) (row : Row) : List String :=
  (if distance_km hav row > 100 then ["unrealistic_distance"] else []) ++
  (if duration_min row > 180 then ["unrealistic_duration"] else []) ++
  (if distance_km hav row < 1 / 10 ∧ duration_min row > 10 then ["suspicious_trip"]
    else [])

/-- The dict returned on acceptance: defaults fare 10.0, tip 0.0,
payment_type `unknown`. -/
def tripOf (hav : ℚ → ℚ → ℚ → ℚ → Option ℚ) (row : Row) (pickup dropoff : DT) :
    NormalizedTrip :=
  ⟨orNone (rowGet row "vendor_id"), fmtDT pickup, fmtDT dropoff,
    roundTo 6 (tf1 row).1, roundTo 6 (tf2 row).1, roundTo 6 (tf3 row).1,
    roundTo 6 (tf4 row).1, roundTo 3 (distance_km hav row),
    roundTo 3 (duration_min row), roundTo 2 10, roundTo 2 0, some "unknown"⟩

/-- The body of the validator once both timestamps have parsed. -/
def afterTimestamps (hav : ℚ → ℚ → ℚ → ℚ → Option ℚ) (row : Row)
    (pickup dropoff : DT) : Option NormalizedTrip × List String :=
  if DT.le dropoff pickup then (none, ["non_positive_duration"])
  else if (reasonsOf hav row).any isTagged then (none, reasonsOf hav row)
  else if reasonsOf hav row ++ plausReasons hav row = [] then
    (some (tripOf hav row pickup dropoff), reasonsOf hav row ++ plausReasons hav row)
  else (none, reasonsOf hav row ++ plausReasons hav row)

def validate_and_transform_row (hav : ℚ → ℚ → ℚ → ℚ → Option ℚ) (row : Row) :
    Option NormalizedTrip × List String :=
  match parse_dt (rowGetD row "pickup_datetime" ""),
      parse_dt (rowGetD row "dropoff_datetime" "") with
  | some pickup, some dropoff => afterTimestamps hav row pickup dropoff
  | _, _ => (none, ["invalid_timestamp"])

end EtlFixed

namespace AppBackend

/-- `validate_and_transform_row` of backend/app.py: identical to the
etl.py one except that timestamps are parsed with `fromisoformat` only
(a missing key raises KeyError, handled by the same `invalid_timestamp`
branch).  The numeric stages are shared with the etl.py embedding since
the source lines are identical. -/
def validate_and_transform_row (row : Row) : Option NormalizedTrip × List String :=
  match parseIso (rowGetD row "pickup_datetime" "").toList,
      parseIso (rowGetD row "dropoff_datetime" "").toList with
  | some pickup, some dropoff => Etl.afterTimestamps row pickup dropoff
  | _, _ => (none, ["invalid_timestamp"])

end AppBackend

/-! # The output CSV row (write_cleaned_csv plus DictReader re-read)

`csv.DictWriter` writes `str(value)` per field in the fixed column order
(None becomes the empty field); CSV quoting is transparent for a
write-then-read round trip, so one output row re-read by `csv.DictReader`
is the association list below. -/

/-- A `None` field is written as the empty string. -/
def optFieldStr : Option String → String
  | none => ""
  | some s => s

/-- The row obtained by writing a NormalizedTrip with `write_cleaned_csv`
and reading that line back with `csv.DictReader`. -/
def csvRowOf (t : NormalizedTrip) : Row :=
  [("vendor_id", optFieldStr t.vendor_id),
   ("pickup_datetime", t.pickup_datetime),
   ("dropoff_datetime", t.dropoff_datetime),
   ("pickup_lat", qToStr t.pickup_lat),
   ("pickup_lng", qToStr t.pickup_lng),
   ("dropoff_lat", qToStr t.dropoff_lat),
   ("dropoff_lng", qToStr t.dropoff_lng),
   ("distance_km", qToStr t.distance_km),
   ("duration_min", qToStr t.duration_min),
   ("fare_amount", qToStr t.fare_amount),
   ("tip_amount", qToStr t.tip_amount),
   ("payment_type", optFieldStr t.payment_type)]

/-- `write_cleaned_csv`: the body rows written for a list of accepted
records (the fixed header line always precedes them); the returned count
is the list length. -/
def write_cleaned_csv (rows : List NormalizedTrip) : List Row := rows.map csvRowOf

/-! # The batch loading subsystem of etl_fixed.py -/

/-- A Python value as it appears in a DB-API parameter tuple.  `tup v`
is the 1-element tuple `(v,)` — the only tuple shape this code ever
builds (created by the trailing commas discussed at `tripParams`). -/
inductive PyVal where
  | none
  | str (s : String)
  | num (q : ℚ)
  | tup (v : PyVal)
deriving DecidableEq

/-- `x or None` for a string-valued field of the row dict. -/
def pyStrOrNone (s : String) : PyVal := if s = "" then PyVal.none else PyVal.str s

/-- `r.get(k) or None` where the stored value is an optional string. -/
def pyOptStrOrNone : Option String → PyVal
  | none => PyVal.none
  | some s => pyStrOrNone s

/-- `x or None` for a numeric field: Python treats 0.0 as falsy. -/
def pyNumOrNone (q : ℚ) : PyVal := if q = 0 then PyVal.none else PyVal.num q

/-- The parameter tuple `load_into_mysql` builds for one normalized record
(etl_fixed.py lines 266-284).  The trailing commas of the source lines

  fare_amount = r.get(...) if r[...] is not None else 10.0,
  tip_amount  = r.get(...) if r[...] is not None else 0.0,

make `fare_amount` and `tip_amount` 1-element tuples, which is modelled
literally with `PyVal.tup`.  (The stored fare and tip of a validated row
are numbers, never None, so the conditional takes its first arm.)  The
numeric fields other than fare and tip go through `r.get(k) or None`, so
a stored 0.0 becomes None. -/
def tripParams (r : NormalizedTrip) : List PyVal :=
  [pyOptStrOrNone r.vendor_id,
   pyStrOrNone r.pickup_datetime,
   pyStrOrNone r.dropoff_datetime,
   pyNumOrNone r.pickup_lat,
   pyNumOrNone r.pickup_lng,
   pyNumOrNone r.dropoff_lat,
   pyNumOrNone r.dropoff_lng,
   pyNumOrNone r.distance_km,
   pyNumOrNone r.duration_min,
   PyVal.tup (PyVal.num r.fare_amount),
   PyVal.tup (PyVal.num r.tip_amount),
   (match r.payment_type with
    | some s => PyVal.str s
    | none => PyVal.str "unknown")]

/-- Verdict of one INSERT issued to the external store. -/
inductive DbOutcome where
  | ok
  | integrity (e : String)
  | oerr (e : String)
deriving DecidableEq

def DbOutcome.isOk : DbOutcome → Bool
  | .ok => true
  | _ => false

/-- One structured entry of db/failed_rows.log (each Python write of a
group of lines for one failure is one entry). -/
inductive LogEntry where
  | runHeader
  | parentErr (e : String)
  | batchIntegrity (e : String) (size : Nat)
  | rowIntegrity (idx : Nat) (e : String) (row : List PyVal)
  | rowOther (e : String) (row : List PyVal)
  | unexpectedBatch (e : String)
deriving DecidableEq

def LogEntry.isRowFailure : LogEntry → Bool
  | .rowIntegrity _ _ _ => true
  | .rowOther _ _ => true
  | _ => false

/-- The two lookup tables consumed by the Parent Resolver. -/
structure StoreState where
  vendors : List (String × String)
  payment_types : List (String × String)
deriving DecidableEq

/-- `INSERT IGNORE` of one keyed row: a no-op when the key exists. -/
def insertIgnore (table : List (String × String)) (p : String × String) :
    List (String × String) :=
  if p.1 ∈ table.map Prod.fst then table else table ++ [p]

/-- Insertion sort on strings (`sorted` over a set of distinct keys). -/
def insertSorted (x : String) : List String → List String
  | [] => [x]
  | y :: ys => if x < y then x :: y :: ys else y :: insertSorted x ys

def sortStrings (l : List String) : List String := l.foldr insertSorted []

/-- The distinct, stripped, non-empty vendor identifiers of a batch:
the set comprehension over truthy `vendor_id` values, sorted, with the
empty string dropped. -/
def vendorKeysOf (batch : List NormalizedTrip) : List String :=
  (sortStrings ((batch.filterMap
    (fun r => (orNone r.vendor_id).map String.trim)).dedup)).filter (fun v => v ≠ "")

/-- Same for payment-type codes. -/
def paymentKeysOf (batch : List NormalizedTrip) : List String :=
  (sortStrings ((batch.filterMap
    (fun r => (orNone r.payment_type).map String.trim)).dedup)).filter (fun c => c ≠ "")

/-- `SELECT key FROM table WHERE key IN keys` (as the set the code builds
from fetchall). -/
def selectExisting (keys : List String) (table : List (String × String)) : List String :=
  table.filterMap (fun p => if p.1 ∈ keys then some p.1 else none)

/-- Resolve one key list against one table: fetch existing, insert the
missing keys with the placeholder label, via INSERT IGNORE. -/
def upsertKeys (keys : List String) (table : List (String × String)) :
    List (String × String) :=
  let existing := selectExisting keys table
  let toIns := keys.filter (fun v => v ∉ existing)
  toIns.foldl (fun t v => insertIgnore t (v, "unknown")) table

/-- `upsert_parents_for_batch` of etl_fixed.py. -/
def upsert_parents_for_batch (batch : List NormalizedTrip) (st : StoreState) :
    StoreState :=
  { vendors := upsertKeys (vendorKeysOf batch) st.vendors,
    payment_types := upsertKeys (paymentKeysOf batch) st.payment_types }

/-- Driver state threaded through `load_into_mysql`: the lookup tables,
the persisted-row total and the failure log of this run. -/
structure LoadState where
  store : StoreState
  total : Nat
  log : List LogEntry
deriving DecidableEq

/-- The per-chunk behaviour of the external store: whether the parent
upsert raises, the bulk INSERT verdict, and the per-row INSERT verdicts
used during degraded retry. -/
structure ChunkOracle where
  parentsExc : Option String
  bulk : DbOutcome
  row : Nat → DbOutcome

/-- Log entries produced by the parent-upsert try/except. -/
def parentLog : Option String → List LogEntry
  | none => []
  | some e => [LogEntry.parentErr e]

/-- Parent-upsert step: on an exception the transaction is rolled back
(tables unchanged) and the loop continues to the insert step. -/
def parentsStep (exc : Option String) (batch : List NormalizedTrip)
    (store : StoreState) : StoreState :=
  match exc with
  | none => upsert_parents_for_batch batch store
  | some _ => store

/-- The degraded one-by-one retry loop over the prepared tuples: returns
the per-row success count and the per-row failure entries, in order. -/
def retryRows (rowRes : Nat → DbOutcome) : Nat → List (List PyVal) → Nat × List LogEntry
  | _, [] => (0, [])
  | idx, v :: rest =>
    let acc := retryRows rowRes (idx + 1) rest
    match rowRes idx with
    | .ok => (acc.1 + 1, acc.2)
    | .integrity e => (acc.1, LogEntry.rowIntegrity idx e v :: acc.2)
    | .oerr e => (acc.1, LogEntry.rowOther e v :: acc.2)

/-- Number of indices in `[idx, idx + n)` whose per-row INSERT fails. -/
def failCountFrom (rowRes : Nat → DbOutcome) : Nat → Nat → Nat
  | _, 0 => 0
  | idx, n + 1 => (if (rowRes idx).isOk then 0 else 1) + failCountFrom rowRes (idx + 1) n

/-- Number of indices below `n` whose per-row INSERT fails. -/
def failCount (rowRes : Nat → DbOutcome) (n : Nat) : Nat := failCountFrom rowRes 0 n

/-- One iteration of the chunk loop of `load_into_mysql`: parent upsert
(logged, non-fatal), bulk insert, and on an IntegrityError the degraded
per-row retry; on any other exception the chunk is abandoned. -/
def processChunk (o : ChunkOracle) (batch : List NormalizedTrip) (st : LoadState) :
    LoadState :=
  let store1 := parentsStep o.parentsExc batch st.store
  let log1 := st.log ++ parentLog o.parentsExc
  let values := batch.map tripParams
  match o.bulk with
  | .ok => ⟨store1, st.total + values.length, log1⟩
  | .integrity e =>
    let acc := retryRows o.row 0 values
    ⟨store1, st.total + acc.1, log1 ++ LogEntry.batchIntegrity e values.length :: acc.2⟩
  | .oerr e => ⟨store1, st.total, log1 ++ [LogEntry.unexpectedBatch e]⟩

/-- `chunked(iterable, size)`: fixed-size slices preserving order (fuel
recursion; `size = 0`, which would not terminate in Python either, gives []). -/
def chunkedGo : Nat → Nat → List NormalizedTrip → List (List NormalizedTrip)
  | 0, _, _ => []
  | fuel + 1, size, l =>
    if l = [] ∨ size = 0 then []
    else l.take size :: chunkedGo fuel size (l.drop size)

def chunked (size : Nat) (l : List NormalizedTrip) : List (List NormalizedTrip) :=
  chunkedGo (l.length + 1) size l

/-- The chunk loop, chunk index tracking which oracle verdicts apply. -/
def loadChunks (oracle : Nat → ChunkOracle) :
    Nat → List (List NormalizedTrip) → LoadState → LoadState
  | _, [], st => st
  | i, c :: rest, st => loadChunks oracle (i + 1) rest (processChunk (oracle i) c st)

/-- `load_into_mysql(kept_rows, conn, batch_size)` of etl_fixed.py: append
the run delimiter to the failure log, then process the chunks in order.
The returned Python value is the `total` field of the final state. -/
def load_into_mysql (oracle : Nat → ChunkOracle) (kept_rows : List NormalizedTrip)
    (store : StoreState) (batch_size : Nat) : LoadState :=
  loadChunks oracle 0 (chunked batch_size kept_rows) ⟨store, 0, [LogEntry.runHeader]⟩

/-! # Helper lemmas: characters, takeWhile/dropWhile, trimWs -/

theorem digit_toNat {c : Char} (h : c.isDigit = true) : 48 ≤ c.toNat ∧ c.toNat ≤ 57 := by
  unfold Char.isDigit at h
  simp at h
  exact h

theorem digit_beq_dot {c : Char} (h : c.isDigit = true) : (c == '.') = false := by
  apply beq_eq_false_iff_ne.mpr
  intro h2
  subst h2
  exact absurd h (by decide)

theorem digit_beq_e {c : Char} (h : c.isDigit = true) : (c == 'e') = false := by
  apply beq_eq_false_iff_ne.mpr
  intro h2
  subst h2
  exact absurd h (by decide)

theorem digit_beq_E {c : Char} (h : c.isDigit = true) : (c == 'E') = false := by
  apply beq_eq_false_iff_ne.mpr
  intro h2
  subst h2
  exact absurd h (by decide)

theorem digit_ne_plus {c : Char} (h : c.isDigit = true) : c ≠ '+' := by
  intro h2
  subst h2
  exact absurd h (by decide)

theorem digit_ne_minus {c : Char} (h : c.isDigit = true) : c ≠ '-' := by
  intro h2
  subst h2
  exact absurd h (by decide)

theorem digit_not_ws {c : Char} (h : c.isDigit = true) : isWs c = false := by
  unfold isWs
  have h1 : (c == ' ') = false := by
    apply beq_eq_false_iff_ne.mpr
    intro h2; subst h2; exact absurd h (by decide)
  have h2 : (c == '\t') = false := by
    apply beq_eq_false_iff_ne.mpr
    intro h2; subst h2; exact absurd h (by decide)
  have h3 : (c == '\n') = false := by
    apply beq_eq_false_iff_ne.mpr
    intro h2; subst h2; exact absurd h (by decide)
  have h4 : (c == '\r') = false := by
    apply beq_eq_false_iff_ne.mpr
    intro h2; subst h2; exact absurd h (by decide)
  simp [h1, h2, h3, h4]

theorem dropWhile_all_false {p : Char → Bool} :
    ∀ {l : List Char}, (∀ c ∈ l, p c = false) → l.dropWhile p = l := by
  intro l h
  cases l with
  | nil => rfl
  | cons c rest => simp [List.dropWhile, h c (by simp)]

theorem takeWhile_all_true {p : Char → Bool} :
    ∀ {l : List Char}, (∀ c ∈ l, p c = true) → l.takeWhile p = l := by
  intro l
  induction l with
  | nil => intro _; rfl
  | cons c rest ih =>
      intro h
      rw [List.takeWhile_cons p c rest, if_pos (h c (by simp)),
        ih (fun x hx => h x (by simp [hx]))]

theorem dropWhile_all_true {p : Char → Bool} :
    ∀ {l : List Char}, (∀ c ∈ l, p c = true) → l.dropWhile p = [] := by
  intro l
  induction l with
  | nil => intro _; rfl
  | cons c rest ih =>
      intro h
      rw [List.dropWhile_cons, if_pos (h c (by simp)),
        ih (fun x hx => h x (by simp [hx]))]

theorem takeWhile_append_stop {p : Char → Bool} {x : Char} (hx : p x = false) :
    ∀ {A : List Char} (B : List Char), (∀ c ∈ A, p c = true) →
      (A ++ x :: B).takeWhile p = A := by
  intro A
  induction A with
  | nil => intro B _; simp [List.takeWhile_cons, hx]
  | cons c rest ih =>
      intro B h
      rw [List.cons_append, List.takeWhile_cons, if_pos (h c (by simp)),
        ih B (fun y hy => h y (by simp [hy]))]

theorem dropWhile_append_stop {p : Char → Bool} {x : Char} (hx : p x = false) :
    ∀ {A : List Char} (B : List Char), (∀ c ∈ A, p c = true) →
      (A ++ x :: B).dropWhile p = x :: B := by
  intro A
  induction A with
  | nil => intro B _; simp [List.dropWhile_cons, hx]
  | cons c rest ih =>
      intro B h
      rw [List.cons_append, List.dropWhile_cons, if_pos (h c (by simp))]
      exact ih B (fun y hy => h y (by simp [hy]))

theorem trimWs_of_no_ws {l : List Char} (h : ∀ c ∈ l, isWs c = false) : trimWs l = l := by
  unfold trimWs
  rw [dropWhile_all_false h]
  rw [dropWhile_all_false (fun c hc => h c (List.mem_reverse.mp hc))]
  exact List.reverse_reverse l

/-! # The printer / parser round trip for floats -/

theorem parseNatDigits_of_digits {l : List Char} (hne : l ≠ [])
    (hd : ∀ c ∈ l, c.isDigit = true) : parseNatDigits l = some (charsVal l) := by
  unfold parseNatDigits
  rw [if_pos ⟨hne, List.all_eq_true.mpr hd⟩]

theorem dropTrailingZeros_decomp (l : List Char) :
    ∃ t, l = dropTrailingZeros l ++ List.replicate t '0' := by
  refine ⟨(l.reverse.takeWhile (fun c => c == '0')).length, ?_⟩
  unfold dropTrailingZeros
  have hsplit := List.takeWhile_append_dropWhile (l := l.reverse) (p := fun c => c == '0')
  have hrepl : l.reverse.takeWhile (fun c => c == '0') =
      List.replicate (l.reverse.takeWhile (fun c => c == '0')).length '0' := by
    rw [List.eq_replicate_iff]
    refine ⟨rfl, ?_⟩
    intro b hb
    have := List.mem_takeWhile_imp hb
    exact eq_of_beq this
  conv_lhs => rw [← List.reverse_reverse l, ← hsplit]
  rw [List.reverse_append]
  conv_lhs => rw [hrepl, List.reverse_replicate]

theorem mem_dropTrailingZeros {c : Char} {l : List Char}
    (h : c ∈ dropTrailingZeros l) : c ∈ l := by
  obtain ⟨t, ht⟩ := dropTrailingZeros_decomp l
  rw [ht]
  exact List.mem_append_left _ h

theorem dropTrailingZeros_spec (l : List Char) :
    ∃ t, l = dropTrailingZeros l ++ List.replicate t '0' ∧
      l.length = (dropTrailingZeros l).length + t ∧
      charsVal l = charsVal (dropTrailingZeros l) * 10 ^ t := by
  obtain ⟨t, ht⟩ := dropTrailingZeros_decomp l
  refine ⟨t, ht, ?_, ?_⟩
  · conv_lhs => rw [ht]
    simp
  · conv_lhs => rw [ht]
    rw [charsVal_append, charsVal_replicate_zero, List.length_replicate]
    omega

theorem splitOnE_no_e {l : List Char}
    (h : ∀ c ∈ l, (c == 'e') = false ∧ (c == 'E') = false) : splitOnE l = (l, none) := by
  unfold splitOnE
  have hall : ∀ c ∈ l, (!(c == 'e' || c == 'E')) = true := by
    intro c hc
    simp [(h c hc).1, (h c hc).2]
  rw [takeWhile_all_true hall, dropWhile_all_true hall]

theorem splitOnDot_layout {A B : List Char}
    (hA : ∀ c ∈ A, (c == '.') = false) (hB : ∀ c ∈ B, (c == '.') = false) :
    splitOnDot (A ++ '.' :: B) = some (A, some B) := by
  unfold splitOnDot
  have hAt : ∀ c ∈ A, (!(c == '.')) = true := by intro c hc; simp [hA c hc]
  rw [takeWhile_append_stop (by simp) B hAt, dropWhile_append_stop (by simp) B hAt]
  have : B.any (fun c => c == '.') = false := by
    rw [List.any_eq_false]
    intro c hc
    simp [hB c hc]
  simp [this]

/-- The fractional digit run printed for `fr < 10 ^ 6`. -/
def frStrOf (fr : Nat) : List Char :=
  if dropTrailingZeros (natDigitsPad 6 fr) = [] then ['0']
  else dropTrailingZeros (natDigitsPad 6 fr)

theorem frStrOf_digits {fr : Nat} : ∀ c ∈ frStrOf fr, c.isDigit = true := by
  intro c hc
  unfold frStrOf at hc
  split at hc
  · simp at hc
    subst hc
    decide
  · exact natDigitsPad_all_digit 6 fr c (mem_dropTrailingZeros hc)

theorem frStrOf_ne_nil (fr : Nat) : frStrOf fr ≠ [] := by
  unfold frStrOf
  split
  · simp
  · assumption

theorem frStrOf_val {fr : Nat} (hfr : fr < 10 ^ 6) :
    (charsVal (frStrOf fr) : ℚ) / 10 ^ (frStrOf fr).length = (fr : ℚ) / 10 ^ 6 := by
  obtain ⟨t, hdecomp, hlen, hval⟩ := dropTrailingZeros_spec (natDigitsPad 6 fr)
  have hpadlen : (natDigitsPad 6 fr).length = 6 := natDigitsPad_length 6 fr
  have hpadval : charsVal (natDigitsPad 6 fr) = fr := charsVal_natDigitsPad 6 fr hfr
  rw [hpadval] at hval
  rw [hpadlen] at hlen
  unfold frStrOf
  split
  · rename_i hnil
    rw [hnil] at hval
    simp [charsVal] at hval
    subst hval
    simp [charsVal, charVal]
  · rename_i hnil
    have hL : (dropTrailingZeros (natDigitsPad 6 fr)).length = 6 - t := by omega
    have hfrq : (fr : ℚ) =
        (charsVal (dropTrailingZeros (natDigitsPad 6 fr)) : ℚ) * 10 ^ t := by
      exact_mod_cast hval
    rw [hL, hfrq]
    rw [div_eq_div_iff (by positivity) (by positivity)]
    rw [mul_assoc, ← pow_add]
    congr 1
    congr 1
    omega

theorem parsePos_layout (ip fr : Nat) (hfr : fr < 10 ^ 6) :
    parsePosFloat (natToDigits ip ++ '.' :: frStrOf fr) =
      some ((ip : ℚ) + (fr : ℚ) / 10 ^ 6) := by
  have hipd := natToDigits_all_digit ip
  have hfrd := @frStrOf_digits fr
  have hmem : ∀ c ∈ natToDigits ip ++ '.' :: frStrOf fr,
      (c == 'e') = false ∧ (c == 'E') = false := by
    intro c hc
    rcases List.mem_append.mp hc with hc | hc
    · exact ⟨digit_beq_e (hipd c hc), digit_beq_E (hipd c hc)⟩
    · rcases List.mem_cons.mp hc with hc | hc
      · subst hc; exact ⟨by decide, by decide⟩
      · exact ⟨digit_beq_e (hfrd c hc), digit_beq_E (hfrd c hc)⟩
  unfold parsePosFloat
  rw [splitOnE_no_e hmem]
  show parseMant (natToDigits ip ++ '.' :: frStrOf fr) = _
  unfold parseMant
  rw [splitOnDot_layout (fun c hc => digit_beq_dot (hipd c hc))
    (fun c hc => digit_beq_dot (hfrd c hc))]
  have hne : ¬(natToDigits ip = [] ∧ frStrOf fr = []) := fun hc => natToDigits_ne_nil ip hc.1
  show (if natToDigits ip = [] ∧ frStrOf fr = [] then none
    else if (natToDigits ip).all Char.isDigit ∧ (frStrOf fr).all Char.isDigit then
      some ((charsVal (natToDigits ip) : ℚ) +
        (charsVal (frStrOf fr) : ℚ) / 10 ^ (frStrOf fr).length)
    else none) = _
  rw [if_neg hne, if_pos ⟨List.all_eq_true.mpr hipd, List.all_eq_true.mpr hfrd⟩]
  rw [charsVal_natToDigits]
  rw [frStrOf_val hfr]

theorem toList_mk (l : List Char) : (String.mk l).toList = l := rfl

theorem parseFloat_decimal6 (m : ℤ) :
    parseFloat (qToStr ((m : ℚ) / 10 ^ 6)) = some ((m : ℚ) / 10 ^ 6) := by
  set x : ℚ := (m : ℚ) / 10 ^ 6 with hx
  have habs : |x| * 10 ^ 6 = ((m.natAbs : ℤ) : ℚ) := by
    rw [hx, abs_div, abs_of_pos (by positivity : (0 : ℚ) < 10 ^ 6)]
    rw [div_mul_cancel₀ _ (by positivity : (10 : ℚ) ^ 6 ≠ 0)]
    push_cast
    ring
  have hknum : (|x| * 10 ^ 6).num.toNat = m.natAbs := by
    rw [habs, Rat.num_intCast]
    omega
  have hk6 : ((m.natAbs : ℚ)) / 10 ^ 6 = |x| := by
    rw [div_eq_iff (by positivity : (10 : ℚ) ^ 6 ≠ 0), habs]
    push_cast
    simp [Int.cast_natAbs, Int.cast_abs]
  simp only [qToStr]
  rw [hknum]
  set k := m.natAbs with hkdef
  set ip := k / 10 ^ 6 with hip
  set fr := k % 10 ^ 6 with hfrdef
  have hfr : fr < 10 ^ 6 := Nat.mod_lt _ (by norm_num)
  have hksplit : k = 10 ^ 6 * ip + fr := (Nat.div_add_mod k (10 ^ 6)).symm
  have hfrStr : (if dropTrailingZeros (natDigitsPad 6 fr) = [] then ['0']
      else dropTrailingZeros (natDigitsPad 6 fr)) = frStrOf fr := rfl
  rw [hfrStr]
  have hvalue : (ip : ℚ) + (fr : ℚ) / 10 ^ 6 = |x| := by
    rw [← hk6]
    have hkq : (k : ℚ) = (10 : ℚ) ^ 6 * (ip : ℚ) + (fr : ℚ) := by exact_mod_cast hksplit
    rw [hkq]
    field_simp
    ring
  have hnows : ∀ c ∈ (if x < 0 then ['-'] else []) ++ natToDigits ip ++ '.' :: frStrOf fr,
      isWs c = false := by
    intro c hc
    rcases List.mem_append.mp hc with hc | hc
    · rcases List.mem_append.mp hc with hc | hc
      · split at hc
        · simp at hc; subst hc; decide
        · simp at hc
      · exact digit_not_ws (natToDigits_all_digit ip c hc)
    · rcases List.mem_cons.mp hc with hc | hc
      · subst hc; decide
      · exact digit_not_ws (frStrOf_digits c hc)
  unfold parseFloat
  rw [toList_mk, trimWs_of_no_ws hnows]
  by_cases hneg : x < 0
  · rw [if_pos hneg, List.singleton_append, List.cons_append]
    show (if ('-' : Char) = '+' then parsePosFloat (natToDigits ip ++ '.' :: frStrOf fr)
      else if ('-' : Char) = '-' then
        (parsePosFloat (natToDigits ip ++ '.' :: frStrOf fr)).map (fun q => -q)
      else parsePosFloat ('-' :: (natToDigits ip ++ '.' :: frStrOf fr))) = some x
    rw [if_neg (by decide), if_pos rfl, parsePos_layout ip fr hfr]
    show some (-((ip : ℚ) + (fr : ℚ) / 10 ^ 6)) = some x
    congr 1
    rw [hvalue, abs_of_neg hneg]
    ring
  · rw [if_neg hneg, List.nil_append]
    obtain ⟨c, cs, hcons⟩ : ∃ c cs, natToDigits ip = c :: cs := by
      cases hnd : natToDigits ip with
      | nil => exact absurd hnd (natToDigits_ne_nil ip)
      | cons c cs => exact ⟨c, cs, rfl⟩
    have hcd : c.isDigit = true := natToDigits_all_digit ip c (by rw [hcons]; simp)
    rw [hcons, List.cons_append]
    show (if c = '+' then parsePosFloat (cs ++ '.' :: frStrOf fr)
      else if c = '-' then (parsePosFloat (cs ++ '.' :: frStrOf fr)).map (fun q => -q)
      else parsePosFloat (c :: (cs ++ '.' :: frStrOf fr))) = some x
    rw [if_neg (digit_ne_plus hcd), if_neg (digit_ne_minus hcd)]
    rw [← List.cons_append, ← hcons, parsePos_layout ip fr hfr]
    congr 1
    rw [hvalue]
    exact abs_of_nonneg (not_lt.mp hneg)

/-! # The strftime / parse_dt round trip -/

theorem expectC_cons (c : Char) (rest : List Char) : expectC c (c :: rest) = some rest := by
  simp [expectC]

theorem mkDT_inv {y mo d h mi s us : Nat} {t : DT}
    (he : mkDT y mo d h mi s us = some t) :
    t = ⟨y, mo, d, h, mi, s, us⟩ ∧ t.Valid := by
  simp only [mkDT] at he
  split at he
  · rename_i hv
    cases he
    exact ⟨rfl, hv⟩
  · exact absurd he (by simp)

theorem takeDigits4_pad {y : Nat} (hy : y < 10000) (rest : List Char) :
    takeDigits4 (natDigitsPad 4 y ++ rest) = some (y, rest) := by
  have e : natDigitsPad 4 y = [Nat.digitChar (y / 10 / 10 / 10 % 10),
      Nat.digitChar (y / 10 / 10 % 10), Nat.digitChar (y / 10 % 10),
      Nat.digitChar (y % 10)] := by
    simp [natDigitsPad]
  rw [e]
  have d1 : y / 10 / 10 / 10 % 10 < 10 := Nat.mod_lt _ (by norm_num)
  have d2 : y / 10 / 10 % 10 < 10 := Nat.mod_lt _ (by norm_num)
  have d3 : y / 10 % 10 < 10 := Nat.mod_lt _ (by norm_num)
  have d4 : y % 10 < 10 := Nat.mod_lt _ (by norm_num)
  show (if (Nat.digitChar (y / 10 / 10 / 10 % 10)).isDigit ∧
      (Nat.digitChar (y / 10 / 10 % 10)).isDigit ∧ (Nat.digitChar (y / 10 % 10)).isDigit ∧
      (Nat.digitChar (y % 10)).isDigit then
    some (((charVal (Nat.digitChar (y / 10 / 10 / 10 % 10)) * 10 +
      charVal (Nat.digitChar (y / 10 / 10 % 10))) * 10 +
      charVal (Nat.digitChar (y / 10 % 10))) * 10 + charVal (Nat.digitChar (y % 10)), rest)
    else none) = some (y, rest)
  rw [if_pos ⟨isDigit_digitChar d1, isDigit_digitChar d2, isDigit_digitChar d3,
    isDigit_digitChar d4⟩]
  rw [charVal_digitChar d1, charVal_digitChar d2, charVal_digitChar d3, charVal_digitChar d4]
  congr 1
  congr 1
  omega

theorem takeDigits2_pad {m : Nat} (rest : List Char) :
    takeDigits2 (natDigitsPad 2 m ++ rest) = some (m % 100, rest) := by
  have e : natDigitsPad 2 m = [Nat.digitChar (m / 10 % 10), Nat.digitChar (m % 10)] := by
    simp [natDigitsPad]
  rw [e]
  have d1 : m / 10 % 10 < 10 := Nat.mod_lt _ (by norm_num)
  have d2 : m % 10 < 10 := Nat.mod_lt _ (by norm_num)
  show (if (Nat.digitChar (m / 10 % 10)).isDigit then
      (if (Nat.digitChar (m % 10)).isDigit then
        some (charVal (Nat.digitChar (m / 10 % 10)) * 10 + charVal (Nat.digitChar (m % 10)),
          rest)
      else some (charVal (Nat.digitChar (m / 10 % 10)), Nat.digitChar (m % 10) :: rest))
    else none) = some (m % 100, rest)
  rw [if_pos (isDigit_digitChar d1), if_pos (isDigit_digitChar d2)]
  rw [charVal_digitChar d1, charVal_digitChar d2]
  congr 2
  omega

theorem takeDigits2_pad_nil (m : Nat) :
    takeDigits2 (natDigitsPad 2 m) = some (m % 100, []) := by
  have h := takeDigits2_pad (m := m) []
  rwa [List.append_nil] at h

theorem daysInMonth_le (y m : Nat) : daysInMonth y m ≤ 31 := by
  unfold daysInMonth
  split
  · split <;> norm_num
  · split <;> norm_num

theorem mkDT_self {t : DT} (hv : t.Valid) (hu : t.usec = 0) :
    mkDT t.year t.month t.day t.hour t.minute t.second 0 = some t := by
  have he : (⟨t.year, t.month, t.day, t.hour, t.minute, t.second, 0⟩ : DT) = t := by
    cases t
    simp_all
  simp only [mkDT]
  rw [he, if_pos hv]

theorem parseFmtSpace_fmt {t : DT} (hv : t.Valid) (hu : t.usec = 0) :
    parseFmtSpace (fmtDT t).toList = some t := by
  have hb := hv
  obtain ⟨h1, h2, h3, h4, h5, h6, h7, h8, h9, h10⟩ := hb
  have hy : t.year < 10000 := by omega
  have hdm := daysInMonth_le t.year t.month
  have hmo : t.month % 100 = t.month := Nat.mod_eq_of_lt (by omega)
  have hd : t.day % 100 = t.day := Nat.mod_eq_of_lt (by omega)
  have hh : t.hour % 100 = t.hour := Nat.mod_eq_of_lt (by omega)
  have hmi : t.minute % 100 = t.minute := Nat.mod_eq_of_lt (by omega)
  have hs : t.second % 100 = t.second := Nat.mod_eq_of_lt (by omega)
  simp only [fmtDT, toList_mk, List.append_assoc, List.cons_append]
  simp only [parseFmtSpace, Option.bind_eq_bind, takeDigits4_pad hy, Option.some_bind,
    expectC_cons, takeDigits2_pad, takeDigits2_pad_nil, hmo, hd, hh, hmi, hs]
  rw [if_pos trivial]
  exact mkDT_self hv hu

theorem parse_dt_fmt {t : DT} (hv : t.Valid) (hu : t.usec = 0) :
    parse_dt (fmtDT t) = some t := by
  unfold parse_dt
  rw [parseFmtSpace_fmt hv hu]

theorem parseFmtSpace_valid {l : List Char} {t : DT} (h : parseFmtSpace l = some t) :
    t.Valid ∧ t.usec = 0 := by
  unfold parseFmtSpace at h
  simp only [Option.bind_eq_bind, Option.bind_eq_some] at h
  obtain ⟨⟨y, r1⟩, _, r2, _, ⟨mo, r3⟩, _, r4, _, ⟨d, r5⟩, _, r6, _, ⟨hh, r7⟩, _, r8, _,
    ⟨mi, r9⟩, _, r10, _, ⟨s, r11⟩, _, h⟩ := h
  split at h
  · obtain ⟨he, hvv⟩ := mkDT_inv h
    subst he
    exact ⟨hvv, rfl⟩
  · exact absurd h (by simp)

theorem parseFmtT_valid {l : List Char} {t : DT} (h : parseFmtT l = some t) :
    t.Valid ∧ t.usec = 0 := by
  unfold parseFmtT at h
  simp only [Option.bind_eq_bind, Option.bind_eq_some] at h
  obtain ⟨⟨y, r1⟩, _, r2, _, ⟨mo, r3⟩, _, r4, _, ⟨d, r5⟩, _, r6, _, ⟨hh, r7⟩, _, r8, _,
    ⟨mi, r9⟩, _, r10, _, ⟨s, r11⟩, _, h⟩ := h
  split at h
  · obtain ⟨he, hvv⟩ := mkDT_inv h
    subst he
    exact ⟨hvv, rfl⟩
  · exact absurd h (by simp)

theorem parseFmtUS_valid {l : List Char} {t : DT} (h : parseFmtUS l = some t) :
    t.Valid ∧ t.usec = 0 := by
  unfold parseFmtUS at h
  simp only [Option.bind_eq_bind, Option.bind_eq_some] at h
  obtain ⟨⟨mo, r1⟩, _, r2, _, ⟨d, r3⟩, _, r4, _, ⟨y, r5⟩, _, r6, _, ⟨hh, r7⟩, _, r8, _,
    ⟨mi, r9⟩, _, r10, _, ⟨s, r11⟩, _, h⟩ := h
  split at h
  · obtain ⟨he, hvv⟩ := mkDT_inv h
    subst he
    exact ⟨hvv, rfl⟩
  · exact absurd h (by simp)

theorem parseIsoSep_valid {sep : Char} {y mo d : Nat} {r : List Char} {t : DT}
    (h : parseIsoSep sep y mo d r = some t) : t.Valid := by
  unfold parseIsoSep at h
  split at h
  · simp only [Option.bind_eq_bind, Option.bind_eq_some] at h
    obtain ⟨⟨hh, r7⟩, _, r8, _, ⟨mi, r9⟩, _, ⟨s, us⟩, _, h⟩ := h
    exact (mkDT_inv h).2
  · exact absurd h (by simp)

theorem parseIsoTime_valid {y mo d : Nat} {r : List Char} {t : DT}
    (h : parseIsoTime y mo d r = some t) : t.Valid := by
  cases r with
  | nil =>
      replace h : mkDT y mo d 0 0 0 0 = some t := h
      exact (mkDT_inv h).2
  | cons sep r6 =>
      replace h : parseIsoSep sep y mo d r6 = some t := h
      exact parseIsoSep_valid h

theorem parseIso_valid {l : List Char} {t : DT} (h : parseIso l = some t) : t.Valid := by
  unfold parseIso at h
  simp only [Option.bind_eq_bind, Option.bind_eq_some] at h
  obtain ⟨⟨y, r1⟩, _, r2, _, ⟨mo, r3⟩, _, r4, _, ⟨d, r5⟩, _, h⟩ := h
  exact parseIsoTime_valid h

theorem parse_dt_valid {s : String} {t : DT} (h : parse_dt s = some t) : t.Valid := by
  unfold parse_dt at h
  cases h1 : parseFmtSpace s.toList with
  | some u =>
      rw [h1] at h
      cases h
      exact (parseFmtSpace_valid h1).1
  | none =>
      rw [h1] at h
      cases h2 : parseFmtT s.toList with
      | some u =>
          rw [h2] at h
          cases h
          exact (parseFmtT_valid h2).1
      | none =>
          rw [h2] at h
          cases h3 : parseFmtUS s.toList with
          | some u =>
              rw [h3] at h
              cases h
              exact (parseFmtUS_valid h3).1
          | none =>
              rw [h3] at h
              exact parseIso_valid h

/-! # Reason-tagging lemmas -/

theorem listPre_append (p m : List Char) : listPre p (p ++ m) = true := by
  induction p with
  | nil => rfl
  | cons c rest ih => simp [listPre, ih]

theorem strStarts_append (p k : String) : strStarts (p ++ k) p = true := by
  unfold strStarts
  have : (p ++ k).toList = p.toList ++ k.toList := by
    simp [String.toList]
  rw [this]
  exact listPre_append _ _

theorem isTagged_invalid (k : String) : isTagged ("invalid_" ++ k) = true := by
  unfold isTagged
  rw [strStarts_append]
  simp

theorem isTagged_oor (k : String) : isTagged ("out_of_range_" ++ k) = true := by
  unfold isTagged
  rw [strStarts_append ("out_of_range_" : String) k]
  simp

/-- Every reason `to_float` appends is of one of the two tagged shapes. -/
theorem to_float_snd_mem {v k : String} {mi ma : Option ℚ} {s : String}
    (h : s ∈ (to_float v k mi ma).2) :
    s = "invalid_" ++ k ∨ s = "out_of_range_" ++ k := by
  unfold to_float at h
  cases hp : parseFloat v with
  | none =>
      rw [hp] at h
      simp at h
      exact Or.inl h
  | some x =>
      rw [hp] at h
      simp only [List.mem_append] at h
      rcases h with h | h
      · cases mi with
        | none => simp at h
        | some m =>
            simp only at h
            split at h
            · simp at h; exact Or.inr h
            · simp at h
      · cases ma with
        | none => simp at h
        | some m =>
            simp only at h
            split at h
            · simp at h; exact Or.inr h
            · simp at h

theorem to_float_tagged {v k : String} {mi ma : Option ℚ} :
    ∀ s ∈ (to_float v k mi ma).2, isTagged s = true := by
  intro s hs
  rcases to_float_snd_mem hs with h | h
  · rw [h]; exact isTagged_invalid k
  · rw [h]; exact isTagged_oor k

theorem all_tagged_nil {l : List String} (hall : ∀ s ∈ l, isTagged s = true)
    (hany : l.any isTagged = false) : l = [] := by
  cases l with
  | nil => rfl
  | cons s rest =>
      exfalso
      have h1 : isTagged s = true := hall s (by simp)
      have h2 : ¬isTagged s = true := (List.any_eq_false.mp hany) s (by simp)
      exact h2 h1

/-- When the value parses, `to_float` keeps the value and appends exactly
the applicable out-of-range tags. -/
theorem to_float_of_parse {v k : String} {mi ma : Option ℚ} {x : ℚ}
    (hp : parseFloat v = some x) :
    to_float v k mi ma =
      (x, (match mi with
        | some m => if x < m then ["out_of_range_" ++ k] else []
        | none => []) ++
        (match ma with
        | some m => if x > m then ["out_of_range_" ++ k] else []
        | none => [])) := by
  unfold to_float
  rw [hp]

/-- When the value does not parse, `to_float` yields 0 and the invalid tag. -/
theorem to_float_of_fail {v k : String} {mi ma : Option ℚ}
    (hp : parseFloat v = none) :
    to_float v k mi ma = (0, ["invalid_" ++ k]) := by
  unfold to_float
  rw [hp]

/-- Inversion: an empty appended-reasons list from an interval-gated
`to_float` means the value parsed and lies in the closed interval. -/
theorem to_float_nil_iff {v k : String} {a b : ℚ} :
    (to_float v k (some a) (some b)).2 = [] ↔
      ∃ x, parseFloat v = some x ∧ a ≤ x ∧ x ≤ b ∧
        (to_float v k (some a) (some b)).1 = x := by
  constructor
  · intro h
    cases hp : parseFloat v with
    | none => rw [to_float_of_fail hp] at h ⊢; simp at h
    | some x =>
        rw [to_float_of_parse hp] at h ⊢
        simp only [List.append_eq_nil] at h
        obtain ⟨h1, h2⟩ := h
        refine ⟨x, rfl, ?_, ?_, rfl⟩
        · by_contra hlt
          rw [if_pos (not_le.mp hlt)] at h1
          exact absurd h1 (by simp)
        · by_contra hlt
          rw [if_pos (not_le.mp hlt)] at h2
          exact absurd h2 (by simp)
  · intro ⟨x, hp, h1, h2, _⟩
    rw [to_float_of_parse hp]
    simp only
    rw [if_neg (not_lt.mpr h1), if_neg (not_lt.mpr h2)]
    rfl

/-- Inversion for a lower-bound-only `to_float`. -/
theorem to_float_nil_iff_lb {v k : String} {a : ℚ} :
    (to_float v k (some a) none).2 = [] ↔
      ∃ x, parseFloat v = some x ∧ a ≤ x ∧ (to_float v k (some a) none).1 = x := by
  constructor
  · intro h
    cases hp : parseFloat v with
    | none => rw [to_float_of_fail hp] at h ⊢; simp at h
    | some x =>
        rw [to_float_of_parse hp] at h ⊢
        simp only [List.append_nil] at h
        refine ⟨x, rfl, ?_, rfl⟩
        by_contra hlt
        rw [if_pos (not_le.mp hlt)] at h
        exact absurd h (by simp)
  · intro ⟨x, hp, h1, _⟩
    rw [to_float_of_parse hp]
    simp only
    rw [if_neg (not_lt.mpr h1)]
    rfl

/-! # Validator shape lemmas -/

theorem etl_reasons_tagged (row : Row) : ∀ s ∈ Etl.reasonsOf row, isTagged s = true := by
  intro s hs
  unfold Etl.reasonsOf at hs
  simp only [List.mem_append] at hs
  rcases hs with ((((((h | h) | h) | h) | h) | h) | h) | h <;>
    exact to_float_tagged s h

theorem fixed_reasons_tagged (hav : ℚ → ℚ → ℚ → ℚ → Option ℚ) (row : Row) :
    ∀ s ∈ EtlFixed.reasonsOf hav row, isTagged s = true := by
  intro s hs
  unfold EtlFixed.reasonsOf at hs
  simp only [List.mem_append] at hs
  rcases hs with ((((h | h) | h) | h) | h) | h
  · exact to_float_tagged s h
  · exact to_float_tagged s h
  · exact to_float_tagged s h
  · exact to_float_tagged s h
  · exact to_float_tagged s h
  · unfold EtlFixed.havReasons at h
    cases hr : EtlFixed.havRes hav row with
    | some q => rw [hr] at h; simp at h
    | none =>
        rw [hr] at h
        simp at h
        subst h
        decide

theorem etl_after_allOrNothing (row : Row) (p d : DT) :
    ((Etl.afterTimestamps row d p).1.isSome = true ↔
      (Etl.afterTimestamps row d p).2 = []) := by
  unfold Etl.afterTimestamps
  by_cases hle : DT.le p d = true
  · rw [if_pos hle]
    simp
  · rw [if_neg hle]
    by_cases hany : (Etl.reasonsOf row).any isTagged = true
    · rw [if_pos hany]
      obtain ⟨s, hs, _⟩ := List.any_eq_true.mp hany
      simp only [Option.isSome_none, Bool.false_eq_true, false_iff]
      exact List.ne_nil_of_mem hs
    · rw [if_neg hany]
      have hanyF : (Etl.reasonsOf row).any isTagged = false := by
        revert hany
        cases (Etl.reasonsOf row).any isTagged <;> simp
      have hrs : Etl.reasonsOf row = [] := all_tagged_nil (etl_reasons_tagged row) hanyF
      simp [hrs]

theorem fixed_after_allOrNothing (hav : ℚ → ℚ → ℚ → ℚ → Option ℚ) (row : Row) (p d : DT) :
    ((EtlFixed.afterTimestamps hav row d p).1.isSome = true ↔
      (EtlFixed.afterTimestamps hav row d p).2 = []) := by
  unfold EtlFixed.afterTimestamps
  by_cases hle : DT.le p d = true
  · rw [if_pos hle]
    simp
  · rw [if_neg hle]
    by_cases hany : (EtlFixed.reasonsOf hav row).any isTagged = true
    · rw [if_pos hany]
      obtain ⟨s, hs, _⟩ := List.any_eq_true.mp hany
      simp only [Option.isSome_none, Bool.false_eq_true, false_iff]
      exact List.ne_nil_of_mem hs
    · rw [if_neg hany]
      by_cases hr2 : EtlFixed.reasonsOf hav row ++ EtlFixed.plausReasons hav row = []
      · rw [if_pos hr2]
        simp [hr2]
      · rw [if_neg hr2]
        simp [hr2]

theorem etl_allOrNothing (row : Row) :
    ((Etl.validate_and_transform_row row).1.isSome = true ↔
      (Etl.validate_and_transform_row row).2 = []) := by
  unfold Etl.validate_and_transform_row
  cases hp : parse_dt (rowGetD row "pickup_datetime" "") with
  | none => cases hd : parse_dt (rowGetD row "dropoff_datetime" "") <;> simp
  | some p =>
      cases hd : parse_dt (rowGetD row "dropoff_datetime" "") with
      | none => simp
      | some d => exact etl_after_allOrNothing row d p

theorem fixed_allOrNothing (hav : ℚ → ℚ → ℚ → ℚ → Option ℚ) (row : Row) :
    ((EtlFixed.validate_and_transform_row hav row).1.isSome = true ↔
      (EtlFixed.validate_and_transform_row hav row).2 = []) := by
  unfold EtlFixed.validate_and_transform_row
  cases hp : parse_dt (rowGetD row "pickup_datetime" "") with
  | none => cases hd : parse_dt (rowGetD row "dropoff_datetime" "") <;> simp
  | some p =>
      cases hd : parse_dt (rowGetD row "dropoff_datetime" "") with
      | none => simp
      | some d => exact fixed_after_allOrNothing hav row d p

/-! # Parent Resolver lemmas (claim C8) -/

theorem mem_keys_insertIgnore {t : List (String × String)} {p : String × String}
    {k : String} :
    k ∈ (insertIgnore t p).map Prod.fst ↔ k ∈ t.map Prod.fst ∨ k = p.1 := by
  unfold insertIgnore
  split
  · rename_i hmem
    constructor
    · exact Or.inl
    · rintro (h | h)
      · exact h
      · subst h; exact hmem
  · simp

theorem mem_keys_foldl_of_mem_table {l : List String} :
    ∀ {t : List (String × String)} {k : String}, k ∈ t.map Prod.fst →
      k ∈ (l.foldl (fun t v => insertIgnore t (v, "unknown")) t).map Prod.fst := by
  induction l with
  | nil => intro t k h; exact h
  | cons v rest ih =>
      intro t k h
      exact ih (mem_keys_insertIgnore.mpr (Or.inl h))

theorem mem_keys_foldl_of_mem_list {l : List String} :
    ∀ {t : List (String × String)} {k : String}, k ∈ l →
      k ∈ (l.foldl (fun t v => insertIgnore t (v, "unknown")) t).map Prod.fst := by
  induction l with
  | nil => intro t k h; simp at h
  | cons v rest ih =>
      intro t k h
      rcases List.mem_cons.mp h with h | h
      · subst h
        exact mem_keys_foldl_of_mem_table (t := insertIgnore t (k, "unknown"))
          (mem_keys_insertIgnore.mpr (Or.inr rfl))
      · exact ih h

theorem mem_selectExisting {keys : List String} {t : List (String × String)} {k : String} :
    k ∈ selectExisting keys t ↔ k ∈ t.map Prod.fst ∧ k ∈ keys := by
  unfold selectExisting
  rw [List.mem_filterMap]
  constructor
  · rintro ⟨p, hp, hcond⟩
    by_cases hmem : p.1 ∈ keys
    · rw [if_pos hmem] at hcond
      cases hcond
      exact ⟨List.mem_map.mpr ⟨p, hp, rfl⟩, hmem⟩
    · rw [if_neg hmem] at hcond
      cases hcond
  · rintro ⟨hkt, hkk⟩
    obtain ⟨p, hp, hpk⟩ := List.mem_map.mp hkt
    refine ⟨p, hp, ?_⟩
    rw [hpk, if_pos (hpk ▸ hkk)]

theorem upsertKeys_mem {keys : List String} {t : List (String × String)} :
    ∀ k ∈ keys, k ∈ (upsertKeys keys t).map Prod.fst := by
  intro k hk
  unfold upsertKeys
  by_cases hex : k ∈ selectExisting keys t
  · exact mem_keys_foldl_of_mem_table (mem_selectExisting.mp hex).1
  · refine mem_keys_foldl_of_mem_list (List.mem_filter.mpr ⟨hk, ?_⟩)
    simp [hex]

theorem upsertKeys_noop {keys : List String} {t : List (String × String)}
    (h : ∀ k ∈ keys, k ∈ t.map Prod.fst) : upsertKeys keys t = t := by
  have hto : keys.filter (fun v => v ∉ selectExisting keys t) = [] := by
    rw [List.filter_eq_nil_iff]
    intro k hk
    have hmem : k ∈ selectExisting keys t := mem_selectExisting.mpr ⟨h k hk, hk⟩
    simp [hmem]
  simp only [upsertKeys]
  rw [hto]
  rfl

theorem upsertKeys_idem (keys : List String) (t : List (String × String)) :
    upsertKeys keys (upsertKeys keys t) = upsertKeys keys t :=
  upsertKeys_noop upsertKeys_mem


/-! # Degraded-retry counting lemmas (claim C2) -/

theorem retryRows_spec (rowRes : Nat → DbOutcome) :
    ∀ (l : List (List PyVal)) (idx : Nat),
      (retryRows rowRes idx l).2.length = failCountFrom rowRes idx l.length ∧
      (retryRows rowRes idx l).1 + (retryRows rowRes idx l).2.length = l.length := by
  intro l
  induction l with
  | nil => intro idx; simp [retryRows, failCountFrom]
  | cons v rest ih =>
      intro idx
      obtain ⟨ih1, ih2⟩ := ih (idx + 1)
      simp only [retryRows, failCountFrom, List.length_cons]
      cases hr : rowRes idx with
      | ok =>
          constructor
          · simpa [DbOutcome.isOk] using ih1
          · simp only [DbOutcome.isOk]
            omega
      | integrity e =>
          constructor
          · simp [DbOutcome.isOk]
            omega
          · simp [DbOutcome.isOk]
            omega
      | oerr e =>
          constructor
          · simp [DbOutcome.isOk]
            omega
          · simp [DbOutcome.isOk]
            omega

theorem failCountFrom_succ_top (rowRes : Nat → DbOutcome) :
    ∀ (n idx : Nat), failCountFrom rowRes idx (n + 1) =
      failCountFrom rowRes idx n + (if (rowRes (idx + n)).isOk then 0 else 1) := by
  intro n
  induction n with
  | zero => intro idx; simp [failCountFrom]
  | succ n ih =>
      intro idx
      have hL : failCountFrom rowRes idx (n + 1 + 1) =
          (if (rowRes idx).isOk then 0 else 1) + failCountFrom rowRes (idx + 1) (n + 1) := rfl
      have hR : failCountFrom rowRes idx (n + 1) =
          (if (rowRes idx).isOk then 0 else 1) + failCountFrom rowRes (idx + 1) n := rfl
      rw [hL, hR, ih (idx + 1)]
      have h : idx + 1 + n = idx + (n + 1) := by omega
      rw [h]
      omega

/-- `failCount` is the number of indices below `n` at which the per-row
INSERT verdict is not ok. -/
theorem failCount_eq_filter (rowRes : Nat → DbOutcome) (n : Nat) :
    failCount rowRes n = ((List.range n).filter (fun i => !(rowRes i).isOk)).length := by
  induction n with
  | zero => rfl
  | succ n ih =>
      show failCountFrom rowRes 0 (n + 1) = _
      rw [failCountFrom_succ_top]
      rw [List.range_succ, List.filter_append, List.length_append]
      have hc : failCountFrom rowRes 0 n = failCount rowRes n := rfl
      rw [hc, ih]
      simp only [Nat.zero_add]
      cases hr : (rowRes n).isOk <;> simp [hr]

theorem retryRows_entries (rowRes : Nat → DbOutcome) :
    ∀ (l : List (List PyVal)) (idx : Nat),
      ∀ en ∈ (retryRows rowRes idx l).2, en.isRowFailure = true := by
  intro l
  induction l with
  | nil => intro idx en hen; simp [retryRows] at hen
  | cons v rest ih =>
      intro idx en hen
      simp only [retryRows] at hen
      cases hr : rowRes idx with
      | ok =>
          rw [hr] at hen
          exact ih (idx + 1) en hen
      | integrity e =>
          rw [hr] at hen
          rcases List.mem_cons.mp hen with h | h
          · subst h; rfl
          · exact ih (idx + 1) en h
      | oerr e =>
          rw [hr] at hen
          rcases List.mem_cons.mp hen with h | h
          · subst h; rfl
          · exact ih (idx + 1) en h

/-! # Ground evaluation lemmas for concrete witnesses

Rational arithmetic does not reduce inside the kernel (its normalization
is defined by well-founded recursion), so concrete runs of the validators
are evaluated by simp and norm_num; these small lemmas let the digit
arithmetic reduce first. -/

@[simp] theorem charVal_c0 : charVal '0' = 0 := by decide

@[simp] theorem charVal_c1 : charVal '1' = 1 := by decide

@[simp] theorem charVal_c2 : charVal '2' = 2 := by decide

@[simp] theorem charVal_c3 : charVal '3' = 3 := by decide

@[simp] theorem charVal_c4 : charVal '4' = 4 := by decide

@[simp] theorem charVal_c5 : charVal '5' = 5 := by decide

@[simp] theorem charVal_c6 : charVal '6' = 6 := by decide

@[simp] theorem charVal_c7 : charVal '7' = 7 := by decide

@[simp] theorem charVal_c8 : charVal '8' = 8 := by decide

@[simp] theorem charVal_c9 : charVal '9' = 9 := by decide

/-! # The claims -/

/-- C1: for every raw record, `validate_and_transform_row` (etl.py and
etl_fixed.py) returns a populated normalized record exactly when the
returned reason list is empty; a record and a non-empty reason list are
never both produced (all-or-nothing acceptance). -/
theorem all_or_nothing_c1 (hav : ℚ → ℚ → ℚ → ℚ → Option ℚ) (row : Row) :
    ((Etl.validate_and_transform_row row).1.isSome = true ↔
      (Etl.validate_and_transform_row row).2 = []) ∧
    ((EtlFixed.validate_and_transform_row hav row).1.isSome = true ↔
      (EtlFixed.validate_and_transform_row hav row).2 = []) :=
  ⟨etl_allOrNothing row, fixed_allOrNothing hav row⟩

/-- C8: running `upsert_parents_for_batch` twice in succession on the
same batch leaves the vendors and payment_types tables identical to
running it once, for every batch and every starting store state. -/
theorem upsert_idempotent_c8 (batch : List NormalizedTrip) (st : StoreState) :
    upsert_parents_for_batch batch (upsert_parents_for_batch batch st) =
      upsert_parents_for_batch batch st := by
  unfold upsert_parents_for_batch
  simp only
  congr 1
  · exact upsertKeys_idem _ _
  · exact upsertKeys_idem _ _

/-- C2: when the bulk insert of a chunk of N records raises an integrity
error and exactly K = `failCount` rows fail on their individual retry,
`processChunk` (the chunk step of `load_into_mysql`) increases the
persisted total by exactly N - K, appends the batch-level entry followed
by exactly K per-row failure entries (one per failing row, carrying that
row's parameter values and error), and processes every row of the chunk. -/
theorem chunk_degradation_c2 (pf : Option String) (e : String)
    (rowRes : Nat → DbOutcome) (batch : List NormalizedTrip) (st : LoadState) :
    (processChunk ⟨pf, DbOutcome.integrity e, rowRes⟩ batch st).total
        = st.total + (batch.length - failCount rowRes batch.length)
    ∧ (processChunk ⟨pf, DbOutcome.integrity e, rowRes⟩ batch st).log
        = st.log ++ parentLog pf ++ LogEntry.batchIntegrity e batch.length ::
            (retryRows rowRes 0 (batch.map tripParams)).2
    ∧ (retryRows rowRes 0 (batch.map tripParams)).2.length
        = failCount rowRes batch.length
    ∧ (∀ en ∈ (retryRows rowRes 0 (batch.map tripParams)).2, en.isRowFailure = true) := by
  have hlen : (batch.map tripParams).length = batch.length := List.length_map _ _
  obtain ⟨hK, hN⟩ := retryRows_spec rowRes (batch.map tripParams) 0
  rw [hlen] at hK hN
  have hKc : (retryRows rowRes 0 (batch.map tripParams)).2.length
      = failCount rowRes batch.length := hK
  refine ⟨?_, ?_, hKc, retryRows_entries rowRes (batch.map tripParams) 0⟩
  · show st.total + (retryRows rowRes 0 (batch.map tripParams)).1 = _
    rw [show failCount rowRes batch.length
      = (retryRows rowRes 0 (batch.map tripParams)).2.length from hKc.symm]
    omega
  · show st.log ++ parentLog pf ++ LogEntry.batchIntegrity e (batch.map tripParams).length ::
        (retryRows rowRes 0 (batch.map tripParams)).2 = _
    rw [hlen]

/-- C4: when the bulk insert of a chunk fails with an error that is not
an integrity error, the chunk loop of `load_into_mysql` rolls the chunk
back, logs one unexpected-failure entry, attempts no per-row recovery
(the chunk contributes nothing to the total), and continues with the next
chunk: the run is not aborted. -/
theorem bulk_other_error_c4 (oracle : Nat → ChunkOracle) (i : Nat) (e : String)
    (c : List NormalizedTrip) (rest : List (List NormalizedTrip)) (st : LoadState)
    (h : (oracle i).bulk = DbOutcome.oerr e) :
    loadChunks oracle i (c :: rest) st =
      loadChunks oracle (i + 1) rest
        ⟨parentsStep (oracle i).parentsExc c st.store, st.total,
          st.log ++ parentLog (oracle i).parentsExc ++ [LogEntry.unexpectedBatch e]⟩ := by
  show loadChunks oracle (i + 1) rest (processChunk (oracle i) c st) = _
  congr 1
  unfold processChunk
  rw [h]

/-- Witness for C4 at a concrete chunk: a store outage abandons the
single chunk, persists nothing, logs one unexpected-failure entry. -/
theorem bulk_other_error_c4_witness :
    loadChunks (fun _ => ChunkOracle.mk none (DbOutcome.oerr "db down")
        (fun _ => DbOutcome.ok)) 0 [[]] ⟨⟨[], []⟩, 5, []⟩ =
      ⟨⟨[], []⟩, 5, [LogEntry.unexpectedBatch "db down"]⟩ := by
  have h := bulk_other_error_c4 (fun _ => ChunkOracle.mk none (DbOutcome.oerr "db down")
    (fun _ => DbOutcome.ok)) 0 "db down" [] [] ⟨⟨[], []⟩, 5, []⟩ rfl
  rw [h]
  decide

/-- The record used to exhibit the C3 parameter-tuple shape. -/
def c3Trip : NormalizedTrip :=
  ⟨some "V1", "2023-01-01 08:00:00", "2023-01-01 08:15:00",
    40.75, -73.99, 40.76, -73.97, 5, 15, 10, 0, some "unknown"⟩

/-- C3: the parameter tuple `load_into_mysql` submits for a record.  The
claim says the tuple consists of exactly the record's twelve field values
in the fixed column order; on the code, because of the trailing commas at
etl_fixed.py lines 276-277, the tenth and eleventh parameters are the
1-element tuples `(fare_amount,)` and `(tip_amount,)` rather than the
scalar values. -/
theorem trailing_comma_params_c3 :
    tripParams c3Trip =
      [PyVal.str "V1", PyVal.str "2023-01-01 08:00:00",
       PyVal.str "2023-01-01 08:15:00", PyVal.num 40.75, PyVal.num (-73.99),
       PyVal.num 40.76, PyVal.num (-73.97), PyVal.num 5, PyVal.num 15,
       PyVal.tup (PyVal.num 10), PyVal.tup (PyVal.num 0), PyVal.str "unknown"] ∧
    (tripParams c3Trip)[9]? ≠ some (PyVal.num 10) ∧
    (tripParams c3Trip)[10]? ≠ some (PyVal.num 0) := by
  have h : tripParams c3Trip =
      [PyVal.str "V1", PyVal.str "2023-01-01 08:00:00",
       PyVal.str "2023-01-01 08:15:00", PyVal.num 40.75, PyVal.num (-73.99),
       PyVal.num 40.76, PyVal.num (-73.97), PyVal.num 5, PyVal.num 15,
       PyVal.tup (PyVal.num 10), PyVal.tup (PyVal.num 0), PyVal.str "unknown"] := by
    norm_num +decide [tripParams, c3Trip, pyNumOrNone, pyStrOrNone, pyOptStrOrNone]
  refine ⟨h, ?_, ?_⟩ <;> simp [h]

/-- C6: when both timestamps parse and the dropoff is not strictly after
the pickup, both validators reject with exactly the singleton reason list
`non_positive_duration`, regardless of every other field of the row. -/
theorem non_positive_duration_c6 (hav : ℚ → ℚ → ℚ → ℚ → Option ℚ) (row : Row)
    (p d : DT) (hp : parse_dt (rowGetD row "pickup_datetime" "") = some p)
    (hd : parse_dt (rowGetD row "dropoff_datetime" "") = some d)
    (hle : DT.le d p = true) :
    Etl.validate_and_transform_row row = (none, ["non_positive_duration"]) ∧
    EtlFixed.validate_and_transform_row hav row = (none, ["non_positive_duration"]) := by
  constructor
  · unfold Etl.validate_and_transform_row
    rw [hp, hd]
    show Etl.afterTimestamps row p d = _
    unfold Etl.afterTimestamps
    rw [if_pos hle]
  · unfold EtlFixed.validate_and_transform_row
    rw [hp, hd]
    show EtlFixed.afterTimestamps hav row p d = _
    unfold EtlFixed.afterTimestamps
    rw [if_pos hle]

/-- Witness for C6: equal pickup and dropoff timestamps on an otherwise
well-formed row give exactly the `non_positive_duration` rejection. -/
theorem non_positive_duration_c6_witness :
    Etl.validate_and_transform_row
        [("pickup_datetime", "2023-01-01 08:00:00"),
         ("dropoff_datetime", "2023-01-01 08:00:00"),
         ("pickup_lat", "40.75"), ("duration_min", "15.0")] =
      (none, ["non_positive_duration"]) ∧
    EtlFixed.validate_and_transform_row (fun _ _ _ _ => some 1)
        [("pickup_datetime", "2023-01-01 08:00:00"),
         ("dropoff_datetime", "2023-01-01 08:00:00"),
         ("pickup_lat", "40.75"), ("duration_min", "15.0")] =
      (none, ["non_positive_duration"]) :=
  non_positive_duration_c6 (fun _ _ _ _ => some 1)
    [("pickup_datetime", "2023-01-01 08:00:00"),
     ("dropoff_datetime", "2023-01-01 08:00:00"),
     ("pickup_lat", "40.75"), ("duration_min", "15.0")]
    ⟨2023, 1, 1, 8, 0, 0, 0⟩ ⟨2023, 1, 1, 8, 0, 0, 0⟩
    (by decide) (by decide) (by decide)

theorem roundTo_intCast (n : Nat) (z : ℤ) : roundTo n (z : ℚ) = (z : ℚ) := by
  unfold roundTo
  have h : (z : ℚ) * 10 ^ n = ((z * 10 ^ n : ℤ) : ℚ) := by push_cast; ring
  rw [h, rndEven_intCast]
  push_cast
  field_simp

/-- C7: every record emitted by the etl_fixed validator carries the
defaulted fare 10.0, tip 0.0 and payment type `unknown`, whatever the
source row contains. -/
theorem fixed_defaults_c7 (hav : ℚ → ℚ → ℚ → ℚ → Option ℚ) (row : Row)
    (t : NormalizedTrip) (rs : List String)
    (h : EtlFixed.validate_and_transform_row hav row = (some t, rs)) :
    t.fare_amount = 10 ∧ t.tip_amount = 0 ∧ t.payment_type = some "unknown" := by
  unfold EtlFixed.validate_and_transform_row at h
  cases hp : parse_dt (rowGetD row "pickup_datetime" "") with
  | none =>
      rw [hp] at h
      cases hd : parse_dt (rowGetD row "dropoff_datetime" "") with
      | none => rw [hd] at h; simp at h
      | some d => rw [hd] at h; simp at h
  | some p =>
      rw [hp] at h
      cases hd : parse_dt (rowGetD row "dropoff_datetime" "") with
      | none => rw [hd] at h; simp at h
      | some d =>
          rw [hd] at h
          replace h : EtlFixed.afterTimestamps hav row p d = (some t, rs) := h
          unfold EtlFixed.afterTimestamps at h
          split at h
          · simp at h
          · split at h
            · simp at h
            · split at h
              · rw [Prod.mk.injEq] at h
                obtain ⟨h1, _⟩ := h
                injection h1 with h1
                subst h1
                refine ⟨?_, ?_, rfl⟩
                · show roundTo 2 10 = 10
                  have := roundTo_intCast 2 10
                  simpa using this
                · show roundTo 2 0 = 0
                  have := roundTo_intCast 2 0
                  simpa using this
              · simp at h

/-- The row and haversine oracle used by the C7 witness. -/
def c7row : Row :=
  [("pickup_datetime", "2023-01-01 08:00:00"),
   ("dropoff_datetime", "2023-01-01 08:15:00"),
   ("pickup_latitude", "40.75"), ("pickup_longitude", "-73.99"),
   ("dropoff_latitude", "40.76"), ("dropoff_longitude", "-73.97"),
   ("trip_duration", "900")]

/-- The record the etl_fixed validator emits for `c7row`. -/
def c7trip : NormalizedTrip :=
  ⟨none, "2023-01-01 08:00:00", "2023-01-01 08:15:00",
    40.75, -73.99, 40.76, -73.97, 5, 15, 10, 0, some "unknown"⟩

/-- A rational that is already an integer multiple of `10 ^ (-n)` is a
fixed point of `roundTo n`. -/
theorem roundTo_fix (n : Nat) (x : ℚ) (z : ℤ) (h : x = (z : ℚ) / 10 ^ n) :
    roundTo n x = x := by rw [h, roundTo_intMul]

theorem parseFloat_4075 : parseFloat "40.75" = some (163/4) := by
  unfold parseFloat
  rw [show "40.75".toList = ['4', '0', '.', '7', '5'] from by decide]
  norm_num +decide [trimWs, parsePosFloat, splitOnE, splitOnDot, parseMant,
    parseNatDigits, charsVal, isWs, List.dropWhile_cons, List.takeWhile_cons]

theorem parseFloat_n7399 : parseFloat "-73.99" = some (-(7399/100)) := by
  unfold parseFloat
  rw [show "-73.99".toList = ['-', '7', '3', '.', '9', '9'] from by decide]
  norm_num +decide [trimWs, parsePosFloat, splitOnE, splitOnDot, parseMant,
    parseNatDigits, charsVal, isWs, List.dropWhile_cons, List.takeWhile_cons]

theorem parseFloat_4076 : parseFloat "40.76" = some (1019/25) := by
  unfold parseFloat
  rw [show "40.76".toList = ['4', '0', '.', '7', '6'] from by decide]
  norm_num +decide [trimWs, parsePosFloat, splitOnE, splitOnDot, parseMant,
    parseNatDigits, charsVal, isWs, List.dropWhile_cons, List.takeWhile_cons]

theorem parseFloat_n7397 : parseFloat "-73.97" = some (-(7397/100)) := by
  unfold parseFloat
  rw [show "-73.97".toList = ['-', '7', '3', '.', '9', '7'] from by decide]
  norm_num +decide [trimWs, parsePosFloat, splitOnE, splitOnDot, parseMant,
    parseNatDigits, charsVal, isWs, List.dropWhile_cons, List.takeWhile_cons]

theorem parseFloat_900 : parseFloat "900" = some 900 := by
  unfold parseFloat
  rw [show "900".toList = ['9', '0', '0'] from by decide]
  norm_num +decide [trimWs, parsePosFloat, splitOnE, splitOnDot, parseMant,
    parseNatDigits, charsVal, isWs, List.dropWhile_cons, List.takeWhile_cons]

/-- Evaluation of the etl_fixed validator on `c7row` with a haversine
oracle returning 5 km: the row is accepted and normalizes to `c7trip`. -/
theorem c7row_accepted :
    EtlFixed.validate_and_transform_row (fun _ _ _ _ => some 5) c7row =
      (some c7trip, []) := by
  have hp : parse_dt "2023-01-01 08:00:00" = some ⟨2023, 1, 1, 8, 0, 0, 0⟩ := by decide
  have hd : parse_dt "2023-01-01 08:15:00" = some ⟨2023, 1, 1, 8, 15, 0, 0⟩ := by decide
  have htf1 : EtlFixed.tf1 c7row = (163/4, []) := by
    rw [EtlFixed.tf1, show rowGetD c7row "pickup_latitude" "" = "40.75" from by decide,
      to_float_of_parse parseFloat_4075]
    norm_num
  have htf2 : EtlFixed.tf2 c7row = (-(7399/100), []) := by
    rw [EtlFixed.tf2, show rowGetD c7row "pickup_longitude" "" = "-73.99" from by decide,
      to_float_of_parse parseFloat_n7399]
    norm_num
  have htf3 : EtlFixed.tf3 c7row = (1019/25, []) := by
    rw [EtlFixed.tf3, show rowGetD c7row "dropoff_latitude" "" = "40.76" from by decide,
      to_float_of_parse parseFloat_4076]
    norm_num
  have htf4 : EtlFixed.tf4 c7row = (-(7397/100), []) := by
    rw [EtlFixed.tf4, show rowGetD c7row "dropoff_longitude" "" = "-73.97" from by decide,
      to_float_of_parse parseFloat_n7397]
    norm_num
  have htf5 : EtlFixed.tf5 c7row = (900, []) := by
    rw [EtlFixed.tf5, show rowGetD c7row "trip_duration" "" = "900" from by decide,
      to_float_of_parse parseFloat_900]
    norm_num
  have hhav : EtlFixed.havRes (fun _ _ _ _ => some 5) c7row = some 5 := rfl
  have hreasons : EtlFixed.reasonsOf (fun _ _ _ _ => some 5) c7row = [] := by
    rw [EtlFixed.reasonsOf, htf1, htf2, htf3, htf4, htf5, EtlFixed.havReasons, hhav]
    rfl
  have hdist : EtlFixed.distance_km (fun _ _ _ _ => some 5) c7row = 5 := by
    rw [EtlFixed.distance_km, hhav]
    rfl
  have hdur : EtlFixed.duration_min c7row = 15 := by
    rw [EtlFixed.duration_min, htf5]
    norm_num
  have hplaus : EtlFixed.plausReasons (fun _ _ _ _ => some 5) c7row = [] := by
    rw [EtlFixed.plausReasons, hdist, hdur]
    norm_num
  have htrip : EtlFixed.tripOf (fun _ _ _ _ => some 5) c7row
      ⟨2023, 1, 1, 8, 0, 0, 0⟩ ⟨2023, 1, 1, 8, 15, 0, 0⟩ = c7trip := by
    rw [EtlFixed.tripOf, htf1, htf2, htf3, htf4, hdist, hdur]
    simp only [c7trip]
    norm_num [roundTo_fix 6 ((163 : ℚ)/4) 40750000 (by norm_num),
      roundTo_fix 6 (-((7399 : ℚ)/100)) (-73990000) (by norm_num),
      roundTo_fix 6 ((1019 : ℚ)/25) 40760000 (by norm_num),
      roundTo_fix 6 (-((7397 : ℚ)/100)) (-73970000) (by norm_num),
      roundTo_fix 3 (5 : ℚ) 5000 (by norm_num),
      roundTo_fix 3 (15 : ℚ) 15000 (by norm_num),
      roundTo_fix 2 (10 : ℚ) 1000 (by norm_num),
      roundTo_fix 2 (0 : ℚ) 0 (by norm_num),
      show orNone (rowGet c7row "vendor_id") = none from by decide,
      show fmtDT ⟨2023, 1, 1, 8, 0, 0, 0⟩ = "2023-01-01 08:00:00" from by decide,
      show fmtDT ⟨2023, 1, 1, 8, 15, 0, 0⟩ = "2023-01-01 08:15:00" from by decide]
  unfold EtlFixed.validate_and_transform_row
  rw [show rowGetD c7row "pickup_datetime" "" = "2023-01-01 08:00:00" from by decide,
    show rowGetD c7row "dropoff_datetime" "" = "2023-01-01 08:15:00" from by decide,
    hp, hd]
  show EtlFixed.afterTimestamps (fun _ _ _ _ => some 5) c7row
      ⟨2023, 1, 1, 8, 0, 0, 0⟩ ⟨2023, 1, 1, 8, 15, 0, 0⟩ = (some c7trip, [])
  rw [EtlFixed.afterTimestamps, hreasons, hplaus,
    show DT.le ⟨2023, 1, 1, 8, 15, 0, 0⟩ ⟨2023, 1, 1, 8, 0, 0, 0⟩ = false from by decide]
  simp [htrip]

theorem fixed_defaults_c7_witness :
    c7trip.fare_amount = 10 ∧ c7trip.tip_amount = 0 ∧
      c7trip.payment_type = some "unknown" :=
  fixed_defaults_c7 (fun _ _ _ _ => some 5) c7row c7trip [] c7row_accepted
/-- The two reason tags of one `to_float` call differ for every key. -/
theorem tag_append_ne (k : String) : ("out_of_range_" ++ k) ≠ ("invalid_" ++ k) := by
  intro h
  have hl := congrArg String.length h
  rw [String.length_append, String.length_append,
    show String.length "out_of_range_" = 13 from rfl,
    show String.length "invalid_" = 8 from rfl] at hl
  omega

/-- Membership characterization of the out-of-range tag appended by an
interval-gated `to_float` call. -/
theorem to_float_oor_mem_iff {v k : String} {a b : ℚ} :
    ("out_of_range_" ++ k) ∈ (to_float v k (some a) (some b)).2 ↔
      ∃ x, parseFloat v = some x ∧ (x < a ∨ b < x) := by
  cases hp : parseFloat v with
  | none =>
      rw [to_float_of_fail hp]
      simp [tag_append_ne k, hp]
  | some x =>
      rw [to_float_of_parse hp]
      simp only [List.mem_append]
      constructor
      · intro h
        refine ⟨x, rfl, ?_⟩
        rcases h with h | h
        · split at h
          · left; assumption
          · simp at h
        · split at h
          · right; assumption
          · simp at h
      · rintro ⟨y, hy, hlt⟩
        injection hy with hy
        subst hy
        rcases hlt with h | h
        · left
          rw [if_pos h]
          simp
        · right
          rw [if_pos h]
          simp

/-- C10 counterexample: the spec says the duration gate accepts exactly
(0, 1440] minutes, but all three validators gate `duration_min` to the
closed interval [0.01, 1440] (and etl_fixed gates `trip_duration` seconds
to [1, 86400]): the parsed duration 0.005 satisfies 0 < 0.005 ≤ 1440 yet
the etl.py gate appends `out_of_range_duration_min`. -/
theorem duration_gate_c10_cex :
    parseFloat "0.005" = some (1/200) ∧ (0 : ℚ) < 1/200 ∧ ((1 : ℚ)/200) ≤ 1440 ∧
      (Etl.tf6 [("duration_min", "0.005")]).2 = ["out_of_range_duration_min"] := by
  have hp : parseFloat "0.005" = some (1/200) := by
    unfold parseFloat
    rw [show "0.005".toList = ['0', '.', '0', '0', '5'] from by decide]
    norm_num +decide [trimWs, parsePosFloat, splitOnE, splitOnDot, parseMant,
      parseNatDigits, charsVal, isWs, List.dropWhile_cons, List.takeWhile_cons]
  refine ⟨hp, by norm_num, by norm_num, ?_⟩
  rw [Etl.tf6, show rowGetD [("duration_min", "0.005")] "duration_min" "" = "0.005"
    from by decide, to_float_of_parse hp]
  norm_num
  decide

/-- C10 amended: the duration gates are closed intervals, not (0, 1440].
In etl.py and app.py (which share the `duration_min` stage) the
out-of-range tag is appended exactly when the parsed duration is below
0.01 or above 1440 minutes; in etl_fixed.py exactly when the parsed
`trip_duration` is below 1 or above 86400 seconds. -/
theorem duration_gate_c10_amended (row : Row) :
    ("out_of_range_duration_min" ∈ (Etl.tf6 row).2 ↔
      ∃ x, parseFloat (rowGetD row "duration_min" "") = some x ∧
        (x < 1/100 ∨ 1440 < x)) ∧
    ("out_of_range_trip_duration" ∈ (EtlFixed.tf5 row).2 ↔
      ∃ s, parseFloat (rowGetD row "trip_duration" "") = some s ∧
        (s < 1 ∨ 86400 < s)) := by
  constructor
  · rw [Etl.tf6, show ("out_of_range_duration_min" : String) =
      "out_of_range_" ++ "duration_min" from rfl]
    exact @to_float_oor_mem_iff (rowGetD row "duration_min" "") "duration_min"
      (1/100) 1440
  · rw [EtlFixed.tf5, show ("out_of_range_trip_duration" : String) =
      "out_of_range_" ++ "trip_duration" from rfl]
    exact @to_float_oor_mem_iff (rowGetD row "trip_duration" "") "trip_duration"
      1 86400
theorem parseFloat_150 : parseFloat "15.0" = some 15 := by
  unfold parseFloat
  rw [show "15.0".toList = ['1', '5', '.', '0'] from by decide]
  norm_num +decide [trimWs, parsePosFloat, splitOnE, splitOnDot, parseMant,
    parseNatDigits, charsVal, isWs, List.dropWhile_cons, List.takeWhile_cons]

theorem parseFloat_100 : parseFloat "10.0" = some 10 := by
  unfold parseFloat
  rw [show "10.0".toList = ['1', '0', '.', '0'] from by decide]
  norm_num +decide [trimWs, parsePosFloat, splitOnE, splitOnDot, parseMant,
    parseNatDigits, charsVal, isWs, List.dropWhile_cons, List.takeWhile_cons]

theorem parseFloat_00 : parseFloat "0.0" = some 0 := by
  unfold parseFloat
  rw [show "0.0".toList = ['0', '.', '0'] from by decide]
  norm_num +decide [trimWs, parsePosFloat, splitOnE, splitOnDot, parseMant,
    parseNatDigits, charsVal, isWs, List.dropWhile_cons, List.takeWhile_cons]

theorem parseFloat_empty : parseFloat "" = none := by decide

/-- An etl.py-schema row with valid timestamps, in-range coordinates and
numeric fields, but no `distance_km` column. -/
def c5row : Row :=
  [("pickup_datetime", "2023-01-01 08:00:00"),
   ("dropoff_datetime", "2023-01-01 08:15:00"),
   ("pickup_lat", "40.75"), ("pickup_lng", "-73.99"),
   ("dropoff_lat", "40.76"), ("dropoff_lng", "-73.97"),
   ("duration_min", "15.0"), ("fare_amount", "10.0"), ("tip_amount", "0.0")]

/-- C5 counterexample: etl.py does not treat a missing `distance_km`
field as absent.  `row.get('distance_km', '')` yields the empty string,
`float('')` raises, the reason `invalid_distance_km` is appended and the
otherwise fully valid record is rejected; no great-circle derivation
exists in etl.py. -/
theorem missing_distance_c5_cex :
    rowGet c5row "distance_km" = none ∧
      Etl.validate_and_transform_row c5row = (none, ["invalid_distance_km"]) := by
  refine ⟨by decide, ?_⟩
  have hp : parse_dt "2023-01-01 08:00:00" = some ⟨2023, 1, 1, 8, 0, 0, 0⟩ := by decide
  have hd : parse_dt "2023-01-01 08:15:00" = some ⟨2023, 1, 1, 8, 15, 0, 0⟩ := by decide
  have htf1 : Etl.tf1 c5row = (163/4, []) := by
    rw [Etl.tf1, show rowGetD c5row "pickup_lat" "" = "40.75" from by decide,
      to_float_of_parse parseFloat_4075]
    norm_num
  have htf2 : Etl.tf2 c5row = (-(7399/100), []) := by
    rw [Etl.tf2, show rowGetD c5row "pickup_lng" "" = "-73.99" from by decide,
      to_float_of_parse parseFloat_n7399]
    norm_num
  have htf3 : Etl.tf3 c5row = (1019/25, []) := by
    rw [Etl.tf3, show rowGetD c5row "dropoff_lat" "" = "40.76" from by decide,
      to_float_of_parse parseFloat_4076]
    norm_num
  have htf4 : Etl.tf4 c5row = (-(7397/100), []) := by
    rw [Etl.tf4, show rowGetD c5row "dropoff_lng" "" = "-73.97" from by decide,
      to_float_of_parse parseFloat_n7397]
    norm_num
  have htf5 : Etl.tf5 c5row = (0, ["invalid_distance_km"]) := by
    rw [Etl.tf5, show rowGetD c5row "distance_km" "" = "" from by decide,
      to_float_of_fail parseFloat_empty,
      show ("invalid_" ++ "distance_km" : String) = "invalid_distance_km" from by decide]
  have htf6 : Etl.tf6 c5row = (15, []) := by
    rw [Etl.tf6, show rowGetD c5row "duration_min" "" = "15.0" from by decide,
      to_float_of_parse parseFloat_150]
    norm_num
  have htf7 : Etl.tf7 c5row = (10, []) := by
    rw [Etl.tf7, show rowGetD c5row "fare_amount" "" = "10.0" from by decide,
      to_float_of_parse parseFloat_100]
    norm_num
  have htf8 : Etl.tf8 c5row = (0, []) := by
    rw [Etl.tf8, show rowGetD c5row "tip_amount" "" = "0.0" from by decide,
      to_float_of_parse parseFloat_00]
    norm_num
  have hreas : Etl.reasonsOf c5row = ["invalid_distance_km"] := by
    rw [Etl.reasonsOf, htf1, htf2, htf3, htf4, htf5, htf6, htf7, htf8]
    rfl
  unfold Etl.validate_and_transform_row
  rw [show rowGetD c5row "pickup_datetime" "" = "2023-01-01 08:00:00" from by decide,
    show rowGetD c5row "dropoff_datetime" "" = "2023-01-01 08:15:00" from by decide,
    hp, hd]
  show Etl.afterTimestamps c5row ⟨2023, 1, 1, 8, 0, 0, 0⟩ ⟨2023, 1, 1, 8, 15, 0, 0⟩ =
    (none, ["invalid_distance_km"])
  rw [Etl.afterTimestamps, hreas,
    show DT.le ⟨2023, 1, 1, 8, 15, 0, 0⟩ ⟨2023, 1, 1, 8, 0, 0, 0⟩ = false from by decide,
    show (["invalid_distance_km"].any isTagged) = true from by decide]
  simp

/-- A leading entry whose key differs leaves `rowGet` unchanged. -/
theorem rowGet_cons_ne {k : String} (p : String × String) (row : Row)
    (h : (p.1 == k) = false) : rowGet (p :: row) k = rowGet row k := by
  unfold rowGet
  rw [List.find?_cons_of_neg]
  simp [h]

/-- A leading entry whose key differs leaves `rowGetD` unchanged. -/
theorem rowGetD_cons_ne {k : String} (p : String × String) (row : Row) (d : String)
    (h : (p.1 == k) = false) : rowGetD (p :: row) k d = rowGetD row k d := by
  unfold rowGetD
  rw [rowGet_cons_ne p row h]

/-- C5 amended: etl_fixed.py never consults a `distance_km` column — a
row gains or loses one without any effect on the validator — and on
acceptance the emitted `distance_km` is the haversine result of the four
parsed coordinates, rounded to 3 decimals. -/
theorem missing_distance_c5_amended (hav : ℚ → ℚ → ℚ → ℚ → Option ℚ) (row : Row)
    (v : String) (t : NormalizedTrip) (rs : List String) (dkm : ℚ)
    (hhav : EtlFixed.havRes hav row = some dkm)
    (h : EtlFixed.validate_and_transform_row hav row = (some t, rs)) :
    EtlFixed.validate_and_transform_row hav (("distance_km", v) :: row) =
      EtlFixed.validate_and_transform_row hav row ∧
    t.distance_km = roundTo 3 dkm := by
  constructor
  · have h1 : EtlFixed.tf1 (("distance_km", v) :: row) = EtlFixed.tf1 row := by
      unfold EtlFixed.tf1
      rw [@rowGetD_cons_ne "pickup_latitude" ("distance_km", v) row "" rfl]
    have h2 : EtlFixed.tf2 (("distance_km", v) :: row) = EtlFixed.tf2 row := by
      unfold EtlFixed.tf2
      rw [@rowGetD_cons_ne "pickup_longitude" ("distance_km", v) row "" rfl]
    have h3 : EtlFixed.tf3 (("distance_km", v) :: row) = EtlFixed.tf3 row := by
      unfold EtlFixed.tf3
      rw [@rowGetD_cons_ne "dropoff_latitude" ("distance_km", v) row "" rfl]
    have h4 : EtlFixed.tf4 (("distance_km", v) :: row) = EtlFixed.tf4 row := by
      unfold EtlFixed.tf4
      rw [@rowGetD_cons_ne "dropoff_longitude" ("distance_km", v) row "" rfl]
    have h5 : EtlFixed.tf5 (("distance_km", v) :: row) = EtlFixed.tf5 row := by
      unfold EtlFixed.tf5
      rw [@rowGetD_cons_ne "trip_duration" ("distance_km", v) row "" rfl]
    have hhr : EtlFixed.havRes hav (("distance_km", v) :: row) =
        EtlFixed.havRes hav row := by
      unfold EtlFixed.havRes
      rw [h1, h2, h3, h4]
    have hdur : EtlFixed.duration_min (("distance_km", v) :: row) =
        EtlFixed.duration_min row := by
      unfold EtlFixed.duration_min
      rw [h5]
    have hdk : EtlFixed.distance_km hav (("distance_km", v) :: row) =
        EtlFixed.distance_km hav row := by
      unfold EtlFixed.distance_km
      rw [hhr]
    have hhre : EtlFixed.havReasons hav (("distance_km", v) :: row) =
        EtlFixed.havReasons hav row := by
      unfold EtlFixed.havReasons
      rw [hhr]
    have hre : EtlFixed.reasonsOf hav (("distance_km", v) :: row) =
        EtlFixed.reasonsOf hav row := by
      unfold EtlFixed.reasonsOf
      rw [h1, h2, h3, h4, h5, hhre]
    have hpl : EtlFixed.plausReasons hav (("distance_km", v) :: row) =
        EtlFixed.plausReasons hav row := by
      unfold EtlFixed.plausReasons
      rw [hdk, hdur]
    have htr : ∀ p d, EtlFixed.tripOf hav (("distance_km", v) :: row) p d =
        EtlFixed.tripOf hav row p d := by
      intro p d
      unfold EtlFixed.tripOf
      rw [h1, h2, h3, h4, hdk, hdur, @rowGet_cons_ne "vendor_id" ("distance_km", v) row rfl]
    have hat : ∀ p d, EtlFixed.afterTimestamps hav (("distance_km", v) :: row) p d =
        EtlFixed.afterTimestamps hav row p d := by
      intro p d
      unfold EtlFixed.afterTimestamps
      rw [hre, hpl, htr]
    unfold EtlFixed.validate_and_transform_row
    rw [@rowGetD_cons_ne "pickup_datetime" ("distance_km", v) row "" rfl,
      @rowGetD_cons_ne "dropoff_datetime" ("distance_km", v) row "" rfl]
    cases parse_dt (rowGetD row "pickup_datetime" "") with
    | none => rfl
    | some p =>
        cases parse_dt (rowGetD row "dropoff_datetime" "") with
        | none => rfl
        | some d => exact hat p d
  · unfold EtlFixed.validate_and_transform_row at h
    cases hp : parse_dt (rowGetD row "pickup_datetime" "") with
    | none =>
        rw [hp] at h
        cases hd : parse_dt (rowGetD row "dropoff_datetime" "") with
        | none => rw [hd] at h; simp at h
        | some d => rw [hd] at h; simp at h
    | some p =>
        rw [hp] at h
        cases hd : parse_dt (rowGetD row "dropoff_datetime" "") with
        | none => rw [hd] at h; simp at h
        | some d =>
            rw [hd] at h
            replace h : EtlFixed.afterTimestamps hav row p d = (some t, rs) := h
            unfold EtlFixed.afterTimestamps at h
            split at h
            · simp at h
            · split at h
              · simp at h
              · split at h
                · rw [Prod.mk.injEq] at h
                  obtain ⟨h1, _⟩ := h
                  injection h1 with h1
                  subst h1
                  show roundTo 3 (EtlFixed.distance_km hav row) = roundTo 3 dkm
                  unfold EtlFixed.distance_km
                  rw [hhav]
                  rfl
                · simp at h

theorem missing_distance_c5_witness :
    EtlFixed.validate_and_transform_row (fun _ _ _ _ => some 5)
        (("distance_km", "3.2") :: c7row) =
      EtlFixed.validate_and_transform_row (fun _ _ _ _ => some 5) c7row ∧
    c7trip.distance_km = roundTo 3 5 :=
  missing_distance_c5_amended (fun _ _ _ _ => some 5) c7row "3.2" c7trip [] 5 rfl
    c7row_accepted
/-- An etl.py-schema row, fully in range, whose timestamps carry
sub-second precision: fromisoformat accepts them, strftime truncates. -/
def c9row : Row :=
  [("pickup_datetime", "2023-01-01 08:00:00.400000"),
   ("dropoff_datetime", "2023-01-01 08:00:00.900000"),
   ("pickup_lat", "40.75"), ("pickup_lng", "-73.99"),
   ("dropoff_lat", "40.76"), ("dropoff_lng", "-73.97"),
   ("distance_km", "15.0"), ("duration_min", "15.0"),
   ("fare_amount", "10.0"), ("tip_amount", "0.0")]

/-- The record etl.py emits for `c9row`: both timestamps truncate to the
same second. -/
def c9trip : NormalizedTrip :=
  ⟨none, "2023-01-01 08:00:00", "2023-01-01 08:00:00",
    40.75, -73.99, 40.76, -73.97, 15, 15, 10, 0, none⟩

/-- C9 counterexample: etl.py accepts `c9row` (dropoff is 0.5 s after
pickup), but strftime truncates both emitted timestamps to the same
second, so re-validating the written CSV row rejects it with
`non_positive_duration` — the round trip is not the identity.  Moreover
the output schema cannot round-trip through etl_fixed.py at all: its
validator reads `trip_duration`, which `write_cleaned_csv` never emits. -/
theorem roundtrip_c9_cex :
    Etl.validate_and_transform_row c9row = (some c9trip, []) ∧
      Etl.validate_and_transform_row (csvRowOf c9trip) =
        (none, ["non_positive_duration"]) ∧
      rowGet (csvRowOf c9trip) "trip_duration" = none := by
  refine ⟨?_, ?_, by decide⟩
  · have hp : parse_dt "2023-01-01 08:00:00.400000" =
        some ⟨2023, 1, 1, 8, 0, 0, 400000⟩ := by decide
    have hd : parse_dt "2023-01-01 08:00:00.900000" =
        some ⟨2023, 1, 1, 8, 0, 0, 900000⟩ := by decide
    have htf1 : Etl.tf1 c9row = (163/4, []) := by
      rw [Etl.tf1, show rowGetD c9row "pickup_lat" "" = "40.75" from by decide,
        to_float_of_parse parseFloat_4075]
      norm_num
    have htf2 : Etl.tf2 c9row = (-(7399/100), []) := by
      rw [Etl.tf2, show rowGetD c9row "pickup_lng" "" = "-73.99" from by decide,
        to_float_of_parse parseFloat_n7399]
      norm_num
    have htf3 : Etl.tf3 c9row = (1019/25, []) := by
      rw [Etl.tf3, show rowGetD c9row "dropoff_lat" "" = "40.76" from by decide,
        to_float_of_parse parseFloat_4076]
      norm_num
    have htf4 : Etl.tf4 c9row = (-(7397/100), []) := by
      rw [Etl.tf4, show rowGetD c9row "dropoff_lng" "" = "-73.97" from by decide,
        to_float_of_parse parseFloat_n7397]
      norm_num
    have htf5 : Etl.tf5 c9row = (15, []) := by
      rw [Etl.tf5, show rowGetD c9row "distance_km" "" = "15.0" from by decide,
        to_float_of_parse parseFloat_150]
      norm_num
    have htf6 : Etl.tf6 c9row = (15, []) := by
      rw [Etl.tf6, show rowGetD c9row "duration_min" "" = "15.0" from by decide,
        to_float_of_parse parseFloat_150]
      norm_num
    have htf7 : Etl.tf7 c9row = (10, []) := by
      rw [Etl.tf7, show rowGetD c9row "fare_amount" "" = "10.0" from by decide,
        to_float_of_parse parseFloat_100]
      norm_num
    have htf8 : Etl.tf8 c9row = (0, []) := by
      rw [Etl.tf8, show rowGetD c9row "tip_amount" "" = "0.0" from by decide,
        to_float_of_parse parseFloat_00]
      norm_num
    have hreas : Etl.reasonsOf c9row = [] := by
      rw [Etl.reasonsOf, htf1, htf2, htf3, htf4, htf5, htf6, htf7, htf8]
      rfl
    have htrip : Etl.tripOf c9row ⟨2023, 1, 1, 8, 0, 0, 400000⟩
        ⟨2023, 1, 1, 8, 0, 0, 900000⟩ = c9trip := by
      rw [Etl.tripOf, htf1, htf2, htf3, htf4, htf5, htf6, htf7, htf8]
      simp only [c9trip]
      norm_num [roundTo_fix 6 ((163 : ℚ)/4) 40750000 (by norm_num),
        roundTo_fix 6 (-((7399 : ℚ)/100)) (-73990000) (by norm_num),
        roundTo_fix 6 ((1019 : ℚ)/25) 40760000 (by norm_num),
        roundTo_fix 6 (-((7397 : ℚ)/100)) (-73970000) (by norm_num),
        roundTo_fix 3 (15 : ℚ) 15000 (by norm_num),
        roundTo_fix 2 (10 : ℚ) 1000 (by norm_num),
        roundTo_fix 2 (0 : ℚ) 0 (by norm_num),
        show orNone (rowGet c9row "vendor_id") = none from by decide,
        show orNone (rowGet c9row "payment_type") = none from by decide,
        show fmtDT ⟨2023, 1, 1, 8, 0, 0, 400000⟩ = "2023-01-01 08:00:00" from by decide,
        show fmtDT ⟨2023, 1, 1, 8, 0, 0, 900000⟩ = "2023-01-01 08:00:00" from by decide]
    unfold Etl.validate_and_transform_row
    rw [show rowGetD c9row "pickup_datetime" "" = "2023-01-01 08:00:00.400000"
        from by decide,
      show rowGetD c9row "dropoff_datetime" "" = "2023-01-01 08:00:00.900000"
        from by decide, hp, hd]
    show Etl.afterTimestamps c9row ⟨2023, 1, 1, 8, 0, 0, 400000⟩
      ⟨2023, 1, 1, 8, 0, 0, 900000⟩ = (some c9trip, [])
    rw [Etl.afterTimestamps, hreas,
      show DT.le ⟨2023, 1, 1, 8, 0, 0, 900000⟩ ⟨2023, 1, 1, 8, 0, 0, 400000⟩ = false
        from by decide]
    simp [htrip]
  · unfold Etl.validate_and_transform_row
    rw [show rowGetD (csvRowOf c9trip) "pickup_datetime" "" = "2023-01-01 08:00:00"
        from by decide,
      show rowGetD (csvRowOf c9trip) "dropoff_datetime" "" = "2023-01-01 08:00:00"
        from by decide,
      show parse_dt "2023-01-01 08:00:00" = some ⟨2023, 1, 1, 8, 0, 0, 0⟩ from by decide]
    show Etl.afterTimestamps (csvRowOf c9trip) ⟨2023, 1, 1, 8, 0, 0, 0⟩
      ⟨2023, 1, 1, 8, 0, 0, 0⟩ = (none, ["non_positive_duration"])
    rw [Etl.afterTimestamps,
      show DT.le ⟨2023, 1, 1, 8, 0, 0, 0⟩ ⟨2023, 1, 1, 8, 0, 0, 0⟩ = true from by decide]
    simp
/-- Serializing an n-decimal rounded value with `qToStr` parses back
exactly, for n ≤ 6. -/
theorem parseFloat_qToStr_roundTo {n : Nat} (hn : n ≤ 6) (x : ℚ) :
    parseFloat (qToStr (roundTo n x)) = some (roundTo n x) := by
  obtain ⟨m, hm⟩ := roundTo_eq_intMul n x
  have h6 : (10 : ℚ) ^ 6 = 10 ^ n * 10 ^ (6 - n) := by
    rw [← pow_add]
    congr 1
    omega
  have heq : roundTo n x = ((m * 10 ^ (6 - n) : ℤ) : ℚ) / 10 ^ 6 := by
    rw [hm, h6]
    push_cast
    rw [mul_div_mul_right]
    positivity
  rw [heq, parseFloat_decimal6]

theorem le_roundTo_of_le {n : Nat} {x lo : ℚ} {M : ℤ} (hM : lo = (M : ℚ) / 10 ^ n)
    (h : lo ≤ x) : lo ≤ roundTo n x := by
  subst hM
  exact le_roundTo h

theorem roundTo_le_of_le {n : Nat} {x hi : ℚ} {M : ℤ} (hM : hi = (M : ℚ) / 10 ^ n)
    (h : x ≤ hi) : roundTo n x ≤ hi := by
  subst hM
  exact roundTo_le h

/-- An interval-gated `to_float` accepts the serialized rounded value
again when the pre-rounding value was in range and the bounds are
n-decimal. -/
theorem tf_roundtrip {tag : String} {x lo hi : ℚ} {Ml Mh : ℤ} {n : Nat} (hn : n ≤ 6)
    (hlo : lo = (Ml : ℚ) / 10 ^ n) (hhi : hi = (Mh : ℚ) / 10 ^ n)
    (h1 : lo ≤ x) (h2 : x ≤ hi) :
    to_float (qToStr (roundTo n x)) tag (some lo) (some hi) = (roundTo n x, []) := by
  rw [to_float_of_parse (parseFloat_qToStr_roundTo hn x)]
  show (roundTo n x,
    (if roundTo n x < lo then ["out_of_range_" ++ tag] else []) ++
    (if roundTo n x > hi then ["out_of_range_" ++ tag] else [])) = (roundTo n x, [])
  rw [if_neg (not_lt.mpr (le_roundTo_of_le hlo h1)),
    if_neg (not_lt.mpr (roundTo_le_of_le hhi h2))]
  rfl

/-- Lower-bound-only version of `tf_roundtrip`. -/
theorem tf_roundtrip_lb {tag : String} {x lo : ℚ} {Ml : ℤ} {n : Nat} (hn : n ≤ 6)
    (hlo : lo = (Ml : ℚ) / 10 ^ n) (h1 : lo ≤ x) :
    to_float (qToStr (roundTo n x)) tag (some lo) none = (roundTo n x, []) := by
  rw [to_float_of_parse (parseFloat_qToStr_roundTo hn x)]
  show (roundTo n x,
    (if roundTo n x < lo then ["out_of_range_" ++ tag] else []) ++ []) = (roundTo n x, [])
  rw [if_neg (not_lt.mpr (le_roundTo_of_le hlo h1))]
  rfl

/-- Writing an optional field and applying `or None` on re-read restores
the result of the first `or None`. -/
theorem orNone_optFieldStr (o : Option String) :
    orNone (some (optFieldStr (orNone o))) = orNone o := by
  cases o with
  | none => rfl
  | some s =>
      by_cases hs : s = ""
      · subst hs
        rfl
      · simp [orNone, optFieldStr, hs]
/-- C9 amended: re-validation of an accepted etl.py output row is the
identity provided the accepted row's timestamps carry no sub-second
component (the general claim fails, see the counterexample: strftime
truncates microseconds that fromisoformat accepted).  All rounding is
idempotent, the serialized numbers re-parse exactly, and every range
gate accepts the rounded value again. -/
theorem roundtrip_c9_amended (row : Row) (t : NormalizedTrip) (p d : DT)
    (hpp : parse_dt (rowGetD row "pickup_datetime" "") = some p)
    (hdd : parse_dt (rowGetD row "dropoff_datetime" "") = some d)
    (hup : p.usec = 0) (hud : d.usec = 0)
    (h : Etl.validate_and_transform_row row = (some t, [])) :
    Etl.validate_and_transform_row (csvRowOf t) = (some t, []) := by
  unfold Etl.validate_and_transform_row at h
  rw [hpp, hdd] at h
  replace h : Etl.afterTimestamps row p d = (some t, []) := h
  unfold Etl.afterTimestamps at h
  by_cases hle : DT.le d p = true
  · rw [if_pos hle] at h
    simp at h
  · rw [if_neg hle] at h
    have hleF : DT.le d p = false := by
      cases hx : DT.le d p with
      | false => rfl
      | true => exact absurd hx hle
    split at h
    · simp at h
    · rw [Prod.mk.injEq] at h
      obtain ⟨h1, h2⟩ := h
      injection h1 with h1
      subst h1
      unfold Etl.reasonsOf at h2
      simp only [List.append_eq_nil] at h2
      obtain ⟨⟨⟨⟨⟨⟨⟨e1, e2⟩, e3⟩, e4⟩, e5⟩, e6⟩, e7⟩, e8⟩ := h2
      obtain ⟨x1, hx1p, hx1lo, hx1hi, hx1v⟩ := to_float_nil_iff.mp e1
      obtain ⟨x2, hx2p, hx2lo, hx2hi, hx2v⟩ := to_float_nil_iff.mp e2
      obtain ⟨x3, hx3p, hx3lo, hx3hi, hx3v⟩ := to_float_nil_iff.mp e3
      obtain ⟨x4, hx4p, hx4lo, hx4hi, hx4v⟩ := to_float_nil_iff.mp e4
      obtain ⟨x5, hx5p, hx5lo, hx5hi, hx5v⟩ := to_float_nil_iff.mp e5
      obtain ⟨x6, hx6p, hx6lo, hx6hi, hx6v⟩ := to_float_nil_iff.mp e6
      obtain ⟨x7, hx7p, hx7lo, hx7v⟩ := to_float_nil_iff_lb.mp e7
      obtain ⟨x8, hx8p, hx8lo, hx8v⟩ := to_float_nil_iff_lb.mp e8
      have hv1 : (Etl.tf1 row).1 = x1 := hx1v
      have hv2 : (Etl.tf2 row).1 = x2 := hx2v
      have hv3 : (Etl.tf3 row).1 = x3 := hx3v
      have hv4 : (Etl.tf4 row).1 = x4 := hx4v
      have hv5 : (Etl.tf5 row).1 = x5 := hx5v
      have hv6 : (Etl.tf6 row).1 = x6 := hx6v
      have hv7 : (Etl.tf7 row).1 = x7 := hx7v
      have hv8 : (Etl.tf8 row).1 = x8 := hx8v
      have hq1 : rowGetD (csvRowOf (Etl.tripOf row p d)) "pickup_lat" "" =
          qToStr (roundTo 6 x1) := by
        show qToStr (roundTo 6 (Etl.tf1 row).1) = qToStr (roundTo 6 x1)
        rw [hv1]
      have hq2 : rowGetD (csvRowOf (Etl.tripOf row p d)) "pickup_lng" "" =
          qToStr (roundTo 6 x2) := by
        show qToStr (roundTo 6 (Etl.tf2 row).1) = qToStr (roundTo 6 x2)
        rw [hv2]
      have hq3 : rowGetD (csvRowOf (Etl.tripOf row p d)) "dropoff_lat" "" =
          qToStr (roundTo 6 x3) := by
        show qToStr (roundTo 6 (Etl.tf3 row).1) = qToStr (roundTo 6 x3)
        rw [hv3]
      have hq4 : rowGetD (csvRowOf (Etl.tripOf row p d)) "dropoff_lng" "" =
          qToStr (roundTo 6 x4) := by
        show qToStr (roundTo 6 (Etl.tf4 row).1) = qToStr (roundTo 6 x4)
        rw [hv4]
      have hq5 : rowGetD (csvRowOf (Etl.tripOf row p d)) "distance_km" "" =
          qToStr (roundTo 3 x5) := by
        show qToStr (roundTo 3 (Etl.tf5 row).1) = qToStr (roundTo 3 x5)
        rw [hv5]
      have hq6 : rowGetD (csvRowOf (Etl.tripOf row p d)) "duration_min" "" =
          qToStr (roundTo 3 x6) := by
        show qToStr (roundTo 3 (Etl.tf6 row).1) = qToStr (roundTo 3 x6)
        rw [hv6]
      have hq7 : rowGetD (csvRowOf (Etl.tripOf row p d)) "fare_amount" "" =
          qToStr (roundTo 2 x7) := by
        show qToStr (roundTo 2 (Etl.tf7 row).1) = qToStr (roundTo 2 x7)
        rw [hv7]
      have hq8 : rowGetD (csvRowOf (Etl.tripOf row p d)) "tip_amount" "" =
          qToStr (roundTo 2 x8) := by
        show qToStr (roundTo 2 (Etl.tf8 row).1) = qToStr (roundTo 2 x8)
        rw [hv8]
      have htf1 : Etl.tf1 (csvRowOf (Etl.tripOf row p d)) = (roundTo 6 x1, []) := by
        rw [Etl.tf1, hq1]
        exact tf_roundtrip (by norm_num)
          (show (-90 : ℚ) = ((-90000000 : ℤ) : ℚ) / 10 ^ 6 from by norm_num)
          (show (90 : ℚ) = ((90000000 : ℤ) : ℚ) / 10 ^ 6 from by norm_num) hx1lo hx1hi
      have htf2 : Etl.tf2 (csvRowOf (Etl.tripOf row p d)) = (roundTo 6 x2, []) := by
        rw [Etl.tf2, hq2]
        exact tf_roundtrip (by norm_num)
          (show (-180 : ℚ) = ((-180000000 : ℤ) : ℚ) / 10 ^ 6 from by norm_num)
          (show (180 : ℚ) = ((180000000 : ℤ) : ℚ) / 10 ^ 6 from by norm_num) hx2lo hx2hi
      have htf3 : Etl.tf3 (csvRowOf (Etl.tripOf row p d)) = (roundTo 6 x3, []) := by
        rw [Etl.tf3, hq3]
        exact tf_roundtrip (by norm_num)
          (show (-90 : ℚ) = ((-90000000 : ℤ) : ℚ) / 10 ^ 6 from by norm_num)
          (show (90 : ℚ) = ((90000000 : ℤ) : ℚ) / 10 ^ 6 from by norm_num) hx3lo hx3hi
      have htf4 : Etl.tf4 (csvRowOf (Etl.tripOf row p d)) = (roundTo 6 x4, []) := by
        rw [Etl.tf4, hq4]
        exact tf_roundtrip (by norm_num)
          (show (-180 : ℚ) = ((-180000000 : ℤ) : ℚ) / 10 ^ 6 from by norm_num)
          (show (180 : ℚ) = ((180000000 : ℤ) : ℚ) / 10 ^ 6 from by norm_num) hx4lo hx4hi
      have htf5 : Etl.tf5 (csvRowOf (Etl.tripOf row p d)) = (roundTo 3 x5, []) := by
        rw [Etl.tf5, hq5]
        exact tf_roundtrip (by norm_num)
          (show (0 : ℚ) = ((0 : ℤ) : ℚ) / 10 ^ 3 from by norm_num)
          (show (200 : ℚ) = ((200000 : ℤ) : ℚ) / 10 ^ 3 from by norm_num) hx5lo hx5hi
      have htf6 : Etl.tf6 (csvRowOf (Etl.tripOf row p d)) = (roundTo 3 x6, []) := by
        rw [Etl.tf6, hq6]
        exact tf_roundtrip (by norm_num)
          (show (1 / 100 : ℚ) = ((10 : ℤ) : ℚ) / 10 ^ 3 from by norm_num)
          (show (1440 : ℚ) = ((1440000 : ℤ) : ℚ) / 10 ^ 3 from by norm_num) hx6lo hx6hi
      have htf7 : Etl.tf7 (csvRowOf (Etl.tripOf row p d)) = (roundTo 2 x7, []) := by
        rw [Etl.tf7, hq7]
        exact tf_roundtrip_lb (by norm_num)
          (show (0 : ℚ) = ((0 : ℤ) : ℚ) / 10 ^ 2 from by norm_num) hx7lo
      have htf8 : Etl.tf8 (csvRowOf (Etl.tripOf row p d)) = (roundTo 2 x8, []) := by
        rw [Etl.tf8, hq8]
        exact tf_roundtrip_lb (by norm_num)
          (show (0 : ℚ) = ((0 : ℤ) : ℚ) / 10 ^ 2 from by norm_num) hx8lo
      have hreas : Etl.reasonsOf (csvRowOf (Etl.tripOf row p d)) = [] := by
        rw [Etl.reasonsOf, htf1, htf2, htf3, htf4, htf5, htf6, htf7, htf8]
        rfl
      have hvnd : orNone (rowGet (csvRowOf (Etl.tripOf row p d)) "vendor_id") =
          orNone (rowGet row "vendor_id") :=
        orNone_optFieldStr (rowGet row "vendor_id")
      have hpmt : orNone (rowGet (csvRowOf (Etl.tripOf row p d)) "payment_type") =
          orNone (rowGet row "payment_type") :=
        orNone_optFieldStr (rowGet row "payment_type")
      have htrip : Etl.tripOf (csvRowOf (Etl.tripOf row p d)) p d =
          Etl.tripOf row p d := by
        show (⟨orNone (rowGet (csvRowOf (Etl.tripOf row p d)) "vendor_id"),
            fmtDT p, fmtDT d,
            roundTo 6 (Etl.tf1 (csvRowOf (Etl.tripOf row p d))).1,
            roundTo 6 (Etl.tf2 (csvRowOf (Etl.tripOf row p d))).1,
            roundTo 6 (Etl.tf3 (csvRowOf (Etl.tripOf row p d))).1,
            roundTo 6 (Etl.tf4 (csvRowOf (Etl.tripOf row p d))).1,
            roundTo 3 (Etl.tf5 (csvRowOf (Etl.tripOf row p d))).1,
            roundTo 3 (Etl.tf6 (csvRowOf (Etl.tripOf row p d))).1,
            roundTo 2 (Etl.tf7 (csvRowOf (Etl.tripOf row p d))).1,
            roundTo 2 (Etl.tf8 (csvRowOf (Etl.tripOf row p d))).1,
            orNone (rowGet (csvRowOf (Etl.tripOf row p d)) "payment_type")⟩ :
            NormalizedTrip) =
          ⟨orNone (rowGet row "vendor_id"), fmtDT p, fmtDT d,
            roundTo 6 (Etl.tf1 row).1, roundTo 6 (Etl.tf2 row).1,
            roundTo 6 (Etl.tf3 row).1, roundTo 6 (Etl.tf4 row).1,
            roundTo 3 (Etl.tf5 row).1, roundTo 3 (Etl.tf6 row).1,
            roundTo 2 (Etl.tf7 row).1, roundTo 2 (Etl.tf8 row).1,
            orNone (rowGet row "payment_type")⟩
        rw [htf1, htf2, htf3, htf4, htf5, htf6, htf7, htf8, hv1, hv2, hv3, hv4, hv5,
          hv6, hv7, hv8, hvnd, hpmt]
        norm_num [roundTo_idem]
      unfold Etl.validate_and_transform_row
      rw [show rowGetD (csvRowOf (Etl.tripOf row p d)) "pickup_datetime" "" = fmtDT p
          from rfl,
        show rowGetD (csvRowOf (Etl.tripOf row p d)) "dropoff_datetime" "" = fmtDT d
          from rfl,
        parse_dt_fmt (parse_dt_valid hpp) hup, parse_dt_fmt (parse_dt_valid hdd) hud]
      show Etl.afterTimestamps (csvRowOf (Etl.tripOf row p d)) p d =
        (some (Etl.tripOf row p d), [])
      rw [Etl.afterTimestamps, hreas, hleF]
      simp [htrip]
/-- The row of `c5row` completed with a distance column: fully accepted
by etl.py, with whole-second timestamps. -/
def c9okrow : Row := ("distance_km", "15.0") :: c5row

/-- The record etl.py emits for `c9okrow`. -/
def c9oktrip : NormalizedTrip :=
  ⟨none, "2023-01-01 08:00:00", "2023-01-01 08:15:00",
    40.75, -73.99, 40.76, -73.97, 15, 15, 10, 0, none⟩

/-- Evaluation: etl.py accepts `c9okrow` and emits `c9oktrip`. -/
theorem c9okrow_accepted :
    Etl.validate_and_transform_row c9okrow = (some c9oktrip, []) := by
  have hp : parse_dt "2023-01-01 08:00:00" = some ⟨2023, 1, 1, 8, 0, 0, 0⟩ := by decide
  have hd : parse_dt "2023-01-01 08:15:00" = some ⟨2023, 1, 1, 8, 15, 0, 0⟩ := by decide
  have htf1 : Etl.tf1 c9okrow = (163/4, []) := by
    rw [Etl.tf1, show rowGetD c9okrow "pickup_lat" "" = "40.75" from by decide,
      to_float_of_parse parseFloat_4075]
    norm_num
  have htf2 : Etl.tf2 c9okrow = (-(7399/100), []) := by
    rw [Etl.tf2, show rowGetD c9okrow "pickup_lng" "" = "-73.99" from by decide,
      to_float_of_parse parseFloat_n7399]
    norm_num
  have htf3 : Etl.tf3 c9okrow = (1019/25, []) := by
    rw [Etl.tf3, show rowGetD c9okrow "dropoff_lat" "" = "40.76" from by decide,
      to_float_of_parse parseFloat_4076]
    norm_num
  have htf4 : Etl.tf4 c9okrow = (-(7397/100), []) := by
    rw [Etl.tf4, show rowGetD c9okrow "dropoff_lng" "" = "-73.97" from by decide,
      to_float_of_parse parseFloat_n7397]
    norm_num
  have htf5 : Etl.tf5 c9okrow = (15, []) := by
    rw [Etl.tf5, show rowGetD c9okrow "distance_km" "" = "15.0" from by decide,
      to_float_of_parse parseFloat_150]
    norm_num
  have htf6 : Etl.tf6 c9okrow = (15, []) := by
    rw [Etl.tf6, show rowGetD c9okrow "duration_min" "" = "15.0" from by decide,
      to_float_of_parse parseFloat_150]
    norm_num
  have htf7 : Etl.tf7 c9okrow = (10, []) := by
    rw [Etl.tf7, show rowGetD c9okrow "fare_amount" "" = "10.0" from by decide,
      to_float_of_parse parseFloat_100]
    norm_num
  have htf8 : Etl.tf8 c9okrow = (0, []) := by
    rw [Etl.tf8, show rowGetD c9okrow "tip_amount" "" = "0.0" from by decide,
      to_float_of_parse parseFloat_00]
    norm_num
  have hreas : Etl.reasonsOf c9okrow = [] := by
    rw [Etl.reasonsOf, htf1, htf2, htf3, htf4, htf5, htf6, htf7, htf8]
    rfl
  have htrip : Etl.tripOf c9okrow ⟨2023, 1, 1, 8, 0, 0, 0⟩
      ⟨2023, 1, 1, 8, 15, 0, 0⟩ = c9oktrip := by
    rw [Etl.tripOf, htf1, htf2, htf3, htf4, htf5, htf6, htf7, htf8]
    simp only [c9oktrip]
    norm_num [roundTo_fix 6 ((163 : ℚ)/4) 40750000 (by norm_num),
      roundTo_fix 6 (-((7399 : ℚ)/100)) (-73990000) (by norm_num),
      roundTo_fix 6 ((1019 : ℚ)/25) 40760000 (by norm_num),
      roundTo_fix 6 (-((7397 : ℚ)/100)) (-73970000) (by norm_num),
      roundTo_fix 3 (15 : ℚ) 15000 (by norm_num),
      roundTo_fix 2 (10 : ℚ) 1000 (by norm_num),
      roundTo_fix 2 (0 : ℚ) 0 (by norm_num),
      show orNone (rowGet c9okrow "vendor_id") = none from by decide,
      show orNone (rowGet c9okrow "payment_type") = none from by decide,
      show fmtDT ⟨2023, 1, 1, 8, 0, 0, 0⟩ = "2023-01-01 08:00:00" from by decide,
      show fmtDT ⟨2023, 1, 1, 8, 15, 0, 0⟩ = "2023-01-01 08:15:00" from by decide]
  unfold Etl.validate_and_transform_row
  rw [show rowGetD c9okrow "pickup_datetime" "" = "2023-01-01 08:00:00" from by decide,
    show rowGetD c9okrow "dropoff_datetime" "" = "2023-01-01 08:15:00" from by decide,
    hp, hd]
  show Etl.afterTimestamps c9okrow ⟨2023, 1, 1, 8, 0, 0, 0⟩
    ⟨2023, 1, 1, 8, 15, 0, 0⟩ = (some c9oktrip, [])
  rw [Etl.afterTimestamps, hreas,
    show DT.le ⟨2023, 1, 1, 8, 15, 0, 0⟩ ⟨2023, 1, 1, 8, 0, 0, 0⟩ = false from by decide]
  simp [htrip]

theorem roundtrip_c9_witness :
    Etl.validate_and_transform_row (csvRowOf c9oktrip) = (some c9oktrip, []) :=
  roundtrip_c9_amended c9okrow c9oktrip ⟨2023, 1, 1, 8, 0, 0, 0⟩
    ⟨2023, 1, 1, 8, 15, 0, 0⟩ (by decide) (by decide) rfl rfl c9okrow_accepted
